import Mathlib

/-!
# Verification of the StockSimulate backtesting core

Shallow embedding of the repository's simulation engine, trading calendar,
metrics and request validation, with theorems checking the specified
behaviour. JavaScript numbers are modelled as rationals (`ℚ`), ISO date
strings ("YYYY-MM-DD") as year/month/day triples ordered lexicographically
(which coincides with the string ordering used by `localeCompare` on
well-formed ISO dates), and JavaScript `Map`s as association lookups over
the underlying point lists.
-/

/-- Model of an ISO "YYYY-MM-DD" date string: a year/month/day triple.
`month` is the calendar month (1..12 for real dates, as written in the
string); the JavaScript `getUTCMonth()` 0-based month is `month - 1`. -/
structure IsoDate where
  year : Nat
  month : Nat
  day : Nat
deriving DecidableEq, Repr

namespace IsoDate

/-- String comparison (`localeCompare`) on well-formed ISO dates is the
lexicographic order on (year, month, day). Non-strict version. -/
def le (a b : IsoDate) : Prop :=
  a.year < b.year ∨ (a.year = b.year ∧
    (a.month < b.month ∨ (a.month = b.month ∧ a.day ≤ b.day)))

/-- Strict lexicographic order on dates. -/
def lt (a b : IsoDate) : Prop :=
  a.year < b.year ∨ (a.year = b.year ∧
    (a.month < b.month ∨ (a.month = b.month ∧ a.day < b.day)))

instance : DecidableRel le := fun a b => by unfold le; infer_instance

instance : DecidableRel lt := fun a b => by unfold lt; infer_instance


instance : IsTotal IsoDate le := ⟨fun a b => by unfold le; omega⟩

instance : IsTrans IsoDate le :=
  ⟨fun a b c hab hbc => by unfold le at hab hbc ⊢; omega⟩

instance : IsRefl IsoDate le := ⟨fun a => by unfold le; omega⟩

end IsoDate

/-! ## Trading Calendar / Schedule Builder (src/lib/calendar.ts) -/

/-- Source `sortIsoDates`: sorts a copy of the date list ascending by
`localeCompare` (here: the lexicographic date order). -/
def sortIsoDates (dates : List IsoDate) : List IsoDate :=
  dates.insertionSort IsoDate.le

/-- Source `getUTCMonth()` of the `Date` parsed from the ISO string: the 0-based
month index. -/
def IsoDate.getUTCMonth (d : IsoDate) : Nat := d.month - 1

/-- Source `isQuarterStartMonth`: month (0-based) is January, April, July or
October. -/
def isQuarterStartMonth (month : Nat) : Bool :=
  month = 0 || month = 3 || month = 6 || month = 9

/-- The `${year}-${month}` key built from `getUTCFullYear`/`getUTCMonth`,
modelled as the pair of numbers (the string encoding is injective). -/
def monthKey (d : IsoDate) : Nat × Nat := (d.year, d.getUTCMonth)

/-- The scan inside `buildTradingSchedules`: walk the sorted dates, track
the current year-month key (`none` models the initial `""`), mark the
first date of each new month as a contribution day and, in quarter-start
months, also as a rebalance day. Returns (contributionDays, rebalanceDays)
in insertion order (JS `Set` membership is what the callers use). -/
def buildSchedulesGo : List IsoDate → Option (Nat × Nat) → List IsoDate × List IsoDate
  | [], _ => ([], [])
  | day :: rest, currentMonthKey =>
    if some (monthKey day) = currentMonthKey then
      buildSchedulesGo rest currentMonthKey
    else
      let next := buildSchedulesGo rest (some (monthKey day))
      (day :: next.1,
       if isQuarterStartMonth day.getUTCMonth then day :: next.2 else next.2)

/-- Source `buildTradingSchedules` from src/lib/calendar.ts. -/
def buildTradingSchedules (tradingDays : List IsoDate) : List IsoDate × List IsoDate :=
  buildSchedulesGo (sortIsoDates tradingDays) none

/-! ## Data model (src/lib/types.ts shapes used by the engine) -/

/-- One per ticker per trading day, produced by the market-data layer. -/
structure PricePoint where
  date : IsoDate
  close : ℚ
  adjustedClose : ℚ
  dividendPerShare : ℚ
  splitRatio : ℚ
deriving DecidableEq, Repr

/-- One allocation entry of a simulation request (zod `allocationSchema`
output shape: `{ticker, targetWeight, expenseRatio}`). -/
structure AllocationInput where
  ticker : String
  targetWeight : ℚ
  expenseRatio : ℚ
deriving DecidableEq, Repr

/-- Source `dividendPolicy` enum of the request schema. -/
inductive DividendPolicy
  | to_cash
  | reinvest_same_asset
deriving DecidableEq, Repr

/-- Source `SimulationRequestInput` (the parsed request shape consumed by
`runSimulation`). -/
structure SimulationRequestInput where
  startDate : IsoDate
  endDate : IsoDate
  initialAmount : ℚ
  monthlySalary : ℚ
  monthlyContribution : ℚ
  minimumCashReserve : ℚ
  dividendPolicy : DividendPolicy
  allocations : List AllocationInput
  benchmarkTicker : String
  riskFreeRate : ℚ
deriving Repr

/-- One timeline entry appended per trading day by `runSimulation`. -/
structure TimelinePoint where
  date : IsoDate
  stockValue : ℚ
  cashValue : ℚ
  portfolioValue : ℚ
  benchmarkValue : ℚ
  investedCapital : ℚ
  netFlow : ℚ
deriving DecidableEq, Repr

/-! ## Metrics engine (src/lib/metrics.ts) -/

/-- Source `calculateTimeWeightedDailyReturns`: for each index from 1 to
`values.length - 1`, push 0 when the previous value is ≤ 0, else
`(values[index] - previous - (netFlows[index] ?? 0)) / previous`.
(The JavaScript `Number.isFinite` fallback cannot fire over `ℚ`: the
previous value is positive here, so the quotient is always finite.) -/
def calculateTimeWeightedDailyReturns (values netFlows : List ℚ) : List ℚ :=
  (List.range (values.length - 1)).map fun i =>
    let index := i + 1
    let previousValue := values.getD (index - 1) 0
    if previousValue ≤ 0 then 0
    else (values.getD index 0 - previousValue - netFlows.getD index 0) / previousValue

/-- Model of JavaScript `String.prototype.toUpperCase` that the kernel
can evaluate: upper-case every character. -/
def jsToUpper (s : String) : String := ⟨s.data.map Char.toUpper⟩

/-- Model of `String.prototype.trim` / zod's `.trim()`: drop leading and
trailing whitespace. -/
def jsTrim (s : String) : String :=
  ⟨((s.data.dropWhile Char.isWhitespace).reverse.dropWhile Char.isWhitespace).reverse⟩

/-! ## Request validation (src/lib/schemas/simulation.ts) -/

/-- Field-level checks of the zod `allocationSchema`:
`ticker` trimmed length in [1,10], `targetWeight` in [0,100],
`expenseRatio` in [0,0.05]. -/
def allocationSchemaAccepts (a : AllocationInput) : Bool :=
  decide (1 ≤ (jsTrim a.ticker).length) && decide ((jsTrim a.ticker).length ≤ 10) &&
  decide (0 ≤ a.targetWeight) && decide (a.targetWeight ≤ 100) &&
  decide (0 ≤ a.expenseRatio) && decide (a.expenseRatio ≤ 1/20)

/-- Total allocation weight as summed by the schema's `superRefine`
(`reduce((sum, item) => sum + item.targetWeight, 0)`). -/
def totalTargetWeight (allocations : List AllocationInput) : ℚ :=
  allocations.foldl (fun sum item => sum + item.targetWeight) 0

/-- Whether `simulationRequestSchema.safeParse` succeeds on an
already-shaped request: all object-level field checks plus the
`superRefine` checks (endDate after startDate, total weight > 0.05,
total weight ≤ 100.05, unique upper-cased tickers). -/
def simulationRequestAccepts (r : SimulationRequestInput) : Bool :=
  decide (0 ≤ r.initialAmount) &&
  decide (0 ≤ r.monthlySalary) &&
  decide (0 ≤ r.monthlyContribution) &&
  decide (0 ≤ r.minimumCashReserve) &&
  r.allocations.all allocationSchemaAccepts &&
  decide (1 ≤ r.allocations.length) && decide (r.allocations.length ≤ 10) &&
  decide (1 ≤ (jsTrim r.benchmarkTicker).length) && decide ((jsTrim r.benchmarkTicker).length ≤ 10) &&
  decide (0 ≤ r.riskFreeRate) && decide (r.riskFreeRate ≤ 1/5) &&
  decide (IsoDate.lt r.startDate r.endDate) &&
  decide (1/20 < totalTargetWeight r.allocations) &&
  decide (totalTargetWeight r.allocations ≤ 100 + 1/20) &&
  decide ((r.allocations.map (fun a => jsToUpper a.ticker)).Nodup)

/-! ## Simulation engine (src/lib/simulator.ts) -/

/-- Normalized allocation used inside the engine: upper-cased ticker,
weight = targetWeight / 100, expense ratio unchanged. -/
structure NormalizedAllocation where
  ticker : String
  weight : ℚ
  expenseRatio : ℚ
deriving DecidableEq, Repr

/-- Source `normalizeAllocations`. -/
def normalizeAllocations (allocations : List AllocationInput) : List NormalizedAllocation :=
  allocations.map fun allocation =>
    { ticker := jsToUpper allocation.ticker
      weight := allocation.targetWeight / 100
      expenseRatio := allocation.expenseRatio }

/-- Holdings record (`Record<string, number>`): reads use `?? 0`, so the
model is a total function defaulting to 0. -/
def Holdings : Type := String → ℚ

/-- A `Map<string, number>` keyed by date, built by inserting entries in
list order (later inserts overwrite): lookup returns the value of the last
matching entry. -/
def mapGetLast (entries : List (IsoDate × ℚ)) (d : IsoDate) : Option ℚ :=
  ((entries.filter fun e => e.1 = d).getLast?).map (fun e => e.2)

/-- Source `toCloseMap`. -/
def toCloseMap (points : List PricePoint) : IsoDate → Option ℚ :=
  mapGetLast (points.map fun p => (p.date, p.close))

/-- Source `toAdjustedMap`. -/
def toAdjustedMap (points : List PricePoint) : IsoDate → Option ℚ :=
  mapGetLast (points.map fun p => (p.date, p.adjustedClose))

/-- Source `toDividendMap` (only positive dividends are inserted). -/
def toDividendMap (points : List PricePoint) : IsoDate → Option ℚ :=
  mapGetLast ((points.filter fun p => 0 < p.dividendPerShare).map
    fun p => (p.date, p.dividendPerShare))

/-- Source `toSplitMap` (only ratios that are positive and ≠ 1 are inserted). -/
def toSplitMap (points : List PricePoint) : IsoDate → Option ℚ :=
  mapGetLast ((points.filter fun p => 0 < p.splitRatio ∧ p.splitRatio ≠ 1).map
    fun p => (p.date, p.splitRatio))

/-- Source `intersectDates`: sort the first list ascending, keep the dates
contained in every other list. -/
def intersectDates (dateLists : List (List IsoDate)) : List IsoDate :=
  match dateLists with
  | [] => []
  | first :: rest =>
    (sortIsoDates first).filter fun date => rest.all fun dates => decide (date ∈ dates)

/-- Source `getTotalStockWeight` (`reduce((sum, a) => sum + a.weight, 0)`). -/
def getTotalStockWeight (allocations : List NormalizedAllocation) : ℚ :=
  allocations.foldl (fun sum allocation => sum + allocation.weight) 0

/-- Source `computeDesiredStockBudget`. -/
def computeDesiredStockBudget (portfolioValue totalStockWeight minimumCashReserve : ℚ) : ℚ :=
  if portfolioValue ≤ 0 ∨ totalStockWeight ≤ 0 then 0
  else
    let cashFloor := min minimumCashReserve portfolioValue
    let desiredStock := portfolioValue * totalStockWeight
    let maxStockWithFloor := max 0 (portfolioValue - cashFloor)
    max 0 (min desiredStock maxStockWithFloor)

/-- One iteration of the loop in `investByRelativeStockWeights`: skip the
allocation when its close for the day is missing or ≤ 0 (`!price ||
price <= 0`), otherwise buy `amount * weight/totalWeight` worth of shares
and add that amount to the invested total. -/
def investStep (amount : ℚ) (day : IsoDate) (totalStockWeight : ℚ)
    (closeMaps : String → IsoDate → Option ℚ)
    (state : Holdings × ℚ) (allocation : NormalizedAllocation) : Holdings × ℚ :=
  match closeMaps allocation.ticker day with
  | none => state
  | some price =>
    if price ≤ 0 then state
    else
      let relativeWeight := allocation.weight / totalStockWeight
      let allocationAmount := amount * relativeWeight
      (Function.update state.1 allocation.ticker
        (state.1 allocation.ticker + allocationAmount / price),
       state.2 + allocationAmount)

/-- Source `investByRelativeStockWeights`: returns the updated holdings and the
invested amount (the source mutates `holdings` and returns `invested`). -/
def investByRelativeStockWeights (amount : ℚ) (day : IsoDate)
    (allocations : List NormalizedAllocation) (holdings : Holdings)
    (closeMaps : String → IsoDate → Option ℚ) : Holdings × ℚ :=
  if amount ≤ 0 then (holdings, 0)
  else
    let totalStockWeight := getTotalStockWeight allocations
    if totalStockWeight ≤ 0 then (holdings, 0)
    else allocations.foldl (investStep amount day totalStockWeight closeMaps) (holdings, 0)

/-- Source `applyDailyExpenseDrag`: shares ×= (1 - expenseRatio/252). -/
def applyDailyExpenseDrag (allocations : List NormalizedAllocation)
    (holdings : Holdings) : Holdings :=
  allocations.foldl
    (fun h allocation =>
      Function.update h allocation.ticker
        (h allocation.ticker * (1 - allocation.expenseRatio / 252)))
    holdings

/-- Source `applySplitEvents`: shares ×= ratio when a ratio > 0 and ≠ 1 is
recorded for the day (`!ratio || ratio <= 0 || ratio === 1` skips). -/
def applySplitEvents (day : IsoDate) (allocations : List NormalizedAllocation)
    (holdings : Holdings) (splitMaps : String → IsoDate → Option ℚ) : Holdings :=
  allocations.foldl
    (fun h allocation =>
      match splitMaps allocation.ticker day with
      | none => h
      | some ratio =>
        if ratio ≤ 0 ∨ ratio = 1 then h
        else Function.update h allocation.ticker (h allocation.ticker * ratio))
    holdings

/-- One iteration of `applyDividendEvents`: pay `shares × perShare` to
cash (policy `to_cash`, or no positive close) or reinvest it at the
day's close. -/
def dividendStep (day : IsoDate) (closeMaps dividendMaps : String → IsoDate → Option ℚ)
    (dividendPolicy : DividendPolicy)
    (state : Holdings × ℚ) (allocation : NormalizedAllocation) : Holdings × ℚ :=
  let perShare := (dividendMaps allocation.ticker day).getD 0
  if perShare ≤ 0 then state
  else
    let shares := state.1 allocation.ticker
    if shares ≤ 0 then state
    else
      let payout := shares * perShare
      if payout ≤ 0 then state
      else
        match dividendPolicy with
        | .to_cash => (state.1, state.2 + payout)
        | .reinvest_same_asset =>
          let price := (closeMaps allocation.ticker day).getD 0
          if 0 < price then
            (Function.update state.1 allocation.ticker (shares + payout / price), state.2)
          else (state.1, state.2 + payout)

/-- Source `applyDividendEvents`: returns the updated holdings and cash (the
source mutates `holdings` and returns the next cash value). -/
def applyDividendEvents (day : IsoDate) (allocations : List NormalizedAllocation)
    (holdings : Holdings) (closeMaps dividendMaps : String → IsoDate → Option ℚ)
    (dividendPolicy : DividendPolicy) (cashValue : ℚ) : Holdings × ℚ :=
  allocations.foldl (dividendStep day closeMaps dividendMaps dividendPolicy)
    (holdings, cashValue)

/-- Source `computeStockValue` (`reduce`, missing price or shares read as 0). -/
def computeStockValue (day : IsoDate) (allocations : List NormalizedAllocation)
    (holdings : Holdings) (closeMaps : String → IsoDate → Option ℚ) : ℚ :=
  allocations.foldl
    (fun total allocation =>
      total + holdings allocation.ticker * ((closeMaps allocation.ticker day).getD 0))
    0

/-- Source `computePortfolioValue`. -/
def computePortfolioValue (stockValue cashValue : ℚ) : ℚ :=
  stockValue + cashValue

/-- Source `getCurrentWeights`: per-ticker weight record (reads default to 0). -/
def getCurrentWeights (day : IsoDate) (allocations : List NormalizedAllocation)
    (holdings : Holdings) (closeMaps : String → IsoDate → Option ℚ)
    (portfolioValue : ℚ) : String → ℚ :=
  allocations.foldl
    (fun weights allocation =>
      let price := (closeMaps allocation.ticker day).getD 0
      let positionValue := holdings allocation.ticker * price
      Function.update weights allocation.ticker
        (if 0 < portfolioValue then positionValue / portfolioValue else 0))
    (fun _ => 0)

/-- Drift tolerance constant `WEIGHT_DRIFT_TOLERANCE = 0.005`. -/
def WEIGHT_DRIFT_TOLERANCE : ℚ := 5 / 1000

/-- Source `shouldRebalance`. -/
def shouldRebalance (day : IsoDate) (allocations : List NormalizedAllocation)
    (holdings : Holdings) (closeMaps : String → IsoDate → Option ℚ)
    (cashValue minimumCashReserve : ℚ) : Bool :=
  let stockValue := computeStockValue day allocations holdings closeMaps
  let portfolioValue := computePortfolioValue stockValue cashValue
  if portfolioValue ≤ 0 then false
  else
    let totalStockWeight := getTotalStockWeight allocations
    let currentWeights := getCurrentWeights day allocations holdings closeMaps portfolioValue
    let targetStockBudget :=
      computeDesiredStockBudget portfolioValue totalStockWeight minimumCashReserve
    let targetCashWeight :=
      if 0 < portfolioValue then (portfolioValue - targetStockBudget) / portfolioValue else 0
    let currentCashWeight := if 0 < portfolioValue then cashValue / portfolioValue else 0
    if WEIGHT_DRIFT_TOLERANCE < |currentCashWeight - targetCashWeight| then true
    else if totalStockWeight ≤ 0 ∨ targetStockBudget ≤ 0 then false
    else
      allocations.any fun allocation =>
        let relativeWeight := allocation.weight / totalStockWeight
        let targetWeight := targetStockBudget * relativeWeight / portfolioValue
        decide (WEIGHT_DRIFT_TOLERANCE < |currentWeights allocation.ticker - targetWeight|)

/-- One iteration of the re-target loop in `rebalancePortfolio`: for an
allocation with a positive close, set shares to `targetValue / price` and
add `targetValue` to the invested total; otherwise leave it unchanged. -/
def rebalanceStep (day : IsoDate) (totalStockWeight targetStockBudget : ℚ)
    (closeMaps : String → IsoDate → Option ℚ)
    (state : Holdings × ℚ) (allocation : NormalizedAllocation) : Holdings × ℚ :=
  match closeMaps allocation.ticker day with
  | none => state
  | some price =>
    if price ≤ 0 then state
    else
      let relativeWeight := allocation.weight / totalStockWeight
      let targetValue := targetStockBudget * relativeWeight
      (Function.update state.1 allocation.ticker (targetValue / price),
       state.2 + targetValue)

/-- Source `rebalancePortfolio`: returns the updated holdings and the new cash
value (the source mutates `holdings` and returns the cash). -/
def rebalancePortfolio (day : IsoDate) (allocations : List NormalizedAllocation)
    (holdings : Holdings) (closeMaps : String → IsoDate → Option ℚ)
    (cashValue minimumCashReserve : ℚ) : Holdings × ℚ :=
  let stockValue := computeStockValue day allocations holdings closeMaps
  let portfolioValue := computePortfolioValue stockValue cashValue
  if portfolioValue ≤ 0 then (holdings, cashValue)
  else
    let totalStockWeight := getTotalStockWeight allocations
    let targetStockBudget :=
      computeDesiredStockBudget portfolioValue totalStockWeight minimumCashReserve
    if targetStockBudget ≤ 0 ∨ totalStockWeight ≤ 0 then
      (allocations.foldl (fun h allocation => Function.update h allocation.ticker 0) holdings,
       portfolioValue)
    else
      let final := allocations.foldl
        (rebalanceStep day totalStockWeight targetStockBudget closeMaps) (holdings, 0)
      (final.1, max 0 (portfolioValue - final.2))

/-- The per-run mutable state of `runSimulation`'s day loop, plus the
timeline accumulated so far. -/
structure DayState where
  holdings : Holdings
  benchmarkShares : ℚ
  totalInvested : ℚ
  contributions : ℚ
  cashValue : ℚ
  timeline : List TimelinePoint

/-- Read-only context of the day loop. -/
structure SimContext where
  request : SimulationRequestInput
  benchmarkTicker : String
  allocations : List NormalizedAllocation
  closeMaps : String → IsoDate → Option ℚ
  adjustedMaps : String → IsoDate → Option ℚ
  dividendMaps : String → IsoDate → Option ℚ
  splitMaps : String → IsoDate → Option ℚ
  contributionDays : List IsoDate
  rebalanceDays : List IsoDate
  totalStockWeight : ℚ

/-- Working values threaded between the phases of one loop iteration
(`netFlow` is the `let netFlow = 0` local of the source loop body). -/
structure DayAcc where
  holdings : Holdings
  benchmarkShares : ℚ
  totalInvested : ℚ
  contributions : ℚ
  cashValue : ℚ
  netFlow : ℚ

/-- Day-0 initial investment block (`index === 0 && initialAmount > 0`). -/
def initialInvestPhase (ctx : SimContext) (index : Nat) (day : IsoDate)
    (acc : DayAcc) : DayAcc :=
  if index = 0 ∧ 0 < ctx.request.initialAmount then
    let benchmarkPrice := (ctx.adjustedMaps ctx.benchmarkTicker day).getD 0
    let cashValue := acc.cashValue + ctx.request.initialAmount
    let totalInvested := acc.totalInvested + ctx.request.initialAmount
    let netFlow := acc.netFlow + ctx.request.initialAmount
    let initialStockBudget := computeDesiredStockBudget cashValue ctx.totalStockWeight
      ctx.request.minimumCashReserve
    let invested := investByRelativeStockWeights initialStockBudget day ctx.allocations
      acc.holdings ctx.closeMaps
    let benchmarkShares :=
      if 0 < benchmarkPrice then
        acc.benchmarkShares + ctx.request.initialAmount / benchmarkPrice
      else acc.benchmarkShares
    { holdings := invested.1
      benchmarkShares := benchmarkShares
      totalInvested := totalInvested
      contributions := acc.contributions
      cashValue := cashValue - invested.2
      netFlow := netFlow }
  else acc

/-- Salary leg of a contribution day: net salary
`max(0, monthlySalary - 1,000,000)` is added to cash (and tracked in the
invested/contribution totals), buying benchmark shares alongside when the
benchmark has a positive adjusted close. -/
def salaryPhase (ctx : SimContext) (day : IsoDate) (acc : DayAcc) : DayAcc :=
  let benchmarkPrice := (ctx.adjustedMaps ctx.benchmarkTicker day).getD 0
  let salaryNet := max 0 (ctx.request.monthlySalary - 1000000)
  if 0 < salaryNet then
    { acc with
      cashValue := acc.cashValue + salaryNet
      totalInvested := acc.totalInvested + salaryNet
      contributions := acc.contributions + salaryNet
      netFlow := acc.netFlow + salaryNet
      benchmarkShares :=
        if 0 < benchmarkPrice then acc.benchmarkShares + salaryNet / benchmarkPrice
        else acc.benchmarkShares }
  else acc

/-- Contribution-day block (`contributionDays.has(day)`): add the net
salary to cash, then invest up to `monthlyContribution` from the cash
above the minimum reserve. -/
def contributionPhase (ctx : SimContext) (day : IsoDate) (acc : DayAcc) : DayAcc :=
  if day ∈ ctx.contributionDays then
    let afterSalary := salaryPhase ctx day acc
    let investable := max 0 (afterSalary.cashValue - ctx.request.minimumCashReserve)
    if 0 < ctx.request.monthlyContribution ∧ 0 < investable then
      let actualContribution := min ctx.request.monthlyContribution investable
      let invested := investByRelativeStockWeights actualContribution day ctx.allocations
        afterSalary.holdings ctx.closeMaps
      { afterSalary with
        holdings := invested.1
        cashValue := afterSalary.cashValue - invested.2 }
    else afterSalary
  else acc

/-- Rebalance block (`index > 0 && rebalanceDays.has(day) &&
shouldRebalance(...)`). -/
def rebalancePhase (ctx : SimContext) (index : Nat) (day : IsoDate) (acc : DayAcc) : DayAcc :=
  if 0 < index ∧ day ∈ ctx.rebalanceDays ∧
      shouldRebalance day ctx.allocations acc.holdings ctx.closeMaps acc.cashValue
        ctx.request.minimumCashReserve = true then
    let result := rebalancePortfolio day ctx.allocations acc.holdings ctx.closeMaps
      acc.cashValue ctx.request.minimumCashReserve
    { acc with holdings := result.1, cashValue := result.2 }
  else acc

/-- The working values at the start of a loop iteration (`netFlow` starts
at 0 each day). -/
def dayAccOf (state : DayState) : DayAcc :=
  { holdings := state.holdings
    benchmarkShares := state.benchmarkShares
    totalInvested := state.totalInvested
    contributions := state.contributions
    cashValue := state.cashValue
    netFlow := 0 }

/-- Corporate-action phase: apply split events, then dividend events. -/
def eventsPhase (ctx : SimContext) (day : IsoDate) (acc : DayAcc) : DayAcc :=
  let holdings1 := applySplitEvents day ctx.allocations acc.holdings ctx.splitMaps
  let afterDividends := applyDividendEvents day ctx.allocations holdings1
    ctx.closeMaps ctx.dividendMaps ctx.request.dividendPolicy acc.cashValue
  { acc with holdings := afterDividends.1, cashValue := afterDividends.2 }

/-- Daily expense drag phase. -/
def dragPhase (ctx : SimContext) (acc : DayAcc) : DayAcc :=
  { acc with holdings := applyDailyExpenseDrag ctx.allocations acc.holdings }

/-- The whole day-loop body up to (but excluding) recording the
timeline point, in source order: splits, dividends, day-0 initial
investment, contribution, expense drag, rebalance. -/
def processDay (ctx : SimContext) (index : Nat) (day : IsoDate) (acc : DayAcc) : DayAcc :=
  rebalancePhase ctx index day
    (dragPhase ctx
      (contributionPhase ctx day
        (initialInvestPhase ctx index day
          (eventsPhase ctx day acc))))

/-- One iteration of `runSimulation`'s `for` loop over the trading days. -/
def simStep (ctx : SimContext) (index : Nat) (day : IsoDate) (state : DayState) : DayState :=
  let acc := processDay ctx index day (dayAccOf state)
  let stockValue := computeStockValue day ctx.allocations acc.holdings ctx.closeMaps
  let portfolioValue := computePortfolioValue stockValue acc.cashValue
  let benchmarkPrice := (ctx.adjustedMaps ctx.benchmarkTicker day).getD 0
  let benchmarkValue := acc.benchmarkShares * benchmarkPrice
  { holdings := acc.holdings
    benchmarkShares := acc.benchmarkShares
    totalInvested := acc.totalInvested
    contributions := acc.contributions
    cashValue := acc.cashValue
    timeline := state.timeline ++
      [{ date := day
         stockValue := stockValue
         cashValue := acc.cashValue
         portfolioValue := portfolioValue
         benchmarkValue := benchmarkValue
         investedCapital := acc.totalInvested
         netFlow := acc.netFlow }] }

/-- The indexed `for (let index = 0; ...)` loop over `tradingDays`. -/
def simLoop (ctx : SimContext) (index : Nat) (days : List IsoDate) (state : DayState) : DayState :=
  match days with
  | [] => state
  | day :: rest => simLoop ctx (index + 1) rest (simStep ctx index day state)

/-- Failure modes of `runSimulation` modelled here: the configuration
error thrown when no allocation has positive weight, and the
insufficient-overlap error. -/
inductive SimError
  | configurationError
  | insufficientData
deriving DecidableEq, Repr

/-- Result of a successful run. The timeline is the part of
`SimulationResult` the engine state machine produces; the remaining
fields of the source result (metrics, yearly returns, drawdown, cashflow
breakdown) are pure post-processing of this timeline by the metrics
functions and are not needed by any claim about the run itself. -/
structure SimulationResult where
  timeline : List TimelinePoint

/-- The filtered, normalized allocations `runSimulation` trades
(`normalizeAllocations(request.allocations).filter(w => w > 0)`). -/
def eligibleAllocations (request : SimulationRequestInput) : List NormalizedAllocation :=
  (normalizeAllocations request.allocations).filter fun allocation => 0 < allocation.weight

/-- The overlapping trading days of a run: date-intersection of every
eligible allocation's fetched series and the benchmark's series, computed
exactly as in `runSimulation` (`intersectDates(relevantDateLists)`). The
`fetch` argument models `getHistoricalSeries` restricted to its returned
points. -/
def simTradingDays (request : SimulationRequestInput)
    (fetch : String → List PricePoint) : List IsoDate :=
  let benchmarkTicker := jsToUpper request.benchmarkTicker
  let allocations := eligibleAllocations request
  intersectDates
    ((allocations.map fun allocation => (fetch allocation.ticker).map fun p => p.date) ++
      [(fetch benchmarkTicker).map fun p => p.date])

/-- The loop context `runSimulation` assembles before iterating. -/
def simContext (request : SimulationRequestInput)
    (fetch : String → List PricePoint) : SimContext :=
  let benchmarkTicker := jsToUpper request.benchmarkTicker
  let allocations := eligibleAllocations request
  let schedules := buildTradingSchedules (simTradingDays request fetch)
  { request := request
    benchmarkTicker := benchmarkTicker
    allocations := allocations
    closeMaps := fun ticker => toCloseMap (fetch ticker)
    adjustedMaps := fun ticker => toAdjustedMap (fetch ticker)
    dividendMaps := fun ticker => toDividendMap (fetch ticker)
    splitMaps := fun ticker => toSplitMap (fetch ticker)
    contributionDays := schedules.1
    rebalanceDays := schedules.2
    totalStockWeight := getTotalStockWeight allocations }

/-- Initial loop state (`holdings` all 0, cash 0, empty timeline). -/
def initialDayState : DayState :=
  { holdings := fun _ => 0
    benchmarkShares := 0
    totalInvested := 0
    contributions := 0
    cashValue := 0
    timeline := [] }

/-- Source `runSimulation`, with `getHistoricalSeries` abstracted as the pure
`fetch` oracle (the data layer's retry/caching is outside the engine).
Throwing is modelled as `Except.error`; an error therefore returns no
partial timeline. -/
def runSimulation (request : SimulationRequestInput)
    (fetch : String → List PricePoint) : Except SimError SimulationResult :=
  let allocations := eligibleAllocations request
  if allocations.length = 0 then
    .error .configurationError
  else
    let tradingDays := simTradingDays request fetch
    if tradingDays.length < 2 then
      .error .insufficientData
    else
      let final := simLoop (simContext request fetch) 0 tradingDays initialDayState
      .ok { timeline := final.timeline }

/-! ## Concrete fixtures used by the example theorems and witnesses -/

/-- Order on the `(year, 0-based month)` keys induced by the date order. -/
def keyLe (k k' : Nat × Nat) : Prop :=
  k.1 < k'.1 ∨ (k.1 = k'.1 ∧ k.2 ≤ k'.2)

/-- Concrete trading dates 2024-01-02 … 2024-04-02 with at least one day
per month, used by the spec's schedule example. -/
def scheduleExampleDays : List IsoDate :=
  [⟨2024, 1, 2⟩, ⟨2024, 1, 15⟩, ⟨2024, 2, 1⟩, ⟨2024, 2, 20⟩,
   ⟨2024, 3, 1⟩, ⟨2024, 3, 15⟩, ⟨2024, 4, 1⟩, ⟨2024, 4, 2⟩]

/-- A request with otherwise-valid fields and the given allocations. -/
def requestWithAllocations (allocations : List AllocationInput) : SimulationRequestInput :=
  { startDate := ⟨2020, 1, 1⟩
    endDate := ⟨2024, 1, 1⟩
    initialAmount := 1000000
    monthlySalary := 2500000
    monthlyContribution := 300000
    minimumCashReserve := 500000
    dividendPolicy := .reinvest_same_asset
    allocations := allocations
    benchmarkTicker := "SPY"
    riskFreeRate := 1/50 }

/-- Weight sum exactly 100. -/
def requestWeightSum100 : SimulationRequestInput :=
  requestWithAllocations [⟨"AAA", 60, 0⟩, ⟨"BBB", 40, 0⟩]

/-- Weight sum 80 (20% implicit cash). -/
def requestWeightSum80 : SimulationRequestInput :=
  requestWithAllocations [⟨"AAA", 50, 0⟩, ⟨"BBB", 30, 0⟩]

/-- Weight sum 100.06 (each individual weight still within [0,100]). -/
def requestWeightSum10006 : SimulationRequestInput :=
  requestWithAllocations [⟨"AAA", 50, 0⟩, ⟨"BBB", 50 + 3/50, 0⟩]

/-- Weight sum 100.05: inside the schema's tolerance band, outside the
claimed interval (0, 100]. -/
def requestWeightSum10005 : SimulationRequestInput :=
  requestWithAllocations [⟨"AAA", 50, 0⟩, ⟨"BBB", 50 + 1/20, 0⟩]

/-- Whether an allocation has a recorded, positive close for the day
(the `!price || price <= 0` skip-guard of the trade loops). -/
def hasPositiveClose (closeMaps : String → IsoDate → Option ℚ) (day : IsoDate)
    (allocation : NormalizedAllocation) : Bool :=
  match closeMaps allocation.ticker day with
  | none => false
  | some price => decide (0 < price)

/-- Concrete fixture for the rebalance-related witnesses. -/
def witnessDay : IsoDate := ⟨2024, 1, 5⟩

/-- One 50%-weight allocation. -/
def witnessAllocations : List NormalizedAllocation := [⟨"AAA", 1/2, 0⟩]

/-- One share held of every ticker. -/
def witnessHoldings : Holdings := fun _ => 1

/-- Every ticker closes at 100 every day. -/
def witnessCloseMaps : String → IsoDate → Option ℚ := fun _ _ => some 100

/-- A request whose only allocation has weight 0. -/
def requestZeroWeights : SimulationRequestInput :=
  requestWithAllocations [⟨"AAA", 0, 0⟩]

/-- A market-data oracle returning a single price point for every
ticker. -/
def fetchOnePoint : String → List PricePoint :=
  fun _ => [⟨⟨2024, 1, 2⟩, 10, 10, 0, 1⟩]

/-- Nonnegativity of the working state: all holdings and the cash. -/
def AccNonneg (acc : DayAcc) : Prop :=
  (∀ t, 0 ≤ acc.holdings t) ∧ 0 ≤ acc.cashValue

/-- Invariant carried by the day loop: nonnegative holdings and cash,
and every recorded point has nonnegative cash and portfolio value. -/
def StateInv (s : DayState) : Prop :=
  (∀ t, 0 ≤ s.holdings t) ∧ 0 ≤ s.cashValue ∧
    ∀ pt ∈ s.timeline, 0 ≤ pt.cashValue ∧ 0 ≤ pt.portfolioValue

/-- Market data with two trading days (2024-01-02, 2024-01-03) for every
ticker, no dividends, no splits. -/
def fetchTwoDays : String → List PricePoint :=
  fun _ => [⟨⟨2024, 1, 2⟩, 10, 10, 0, 1⟩, ⟨⟨2024, 1, 3⟩, 11, 11, 0, 1⟩]

/-- The result of the example run used by the engine witnesses. -/
def witnessRunResult : SimulationResult :=
  { timeline := (simLoop (simContext requestWeightSum100 fetchTwoDays) 0
      (simTradingDays requestWeightSum100 fetchTwoDays) initialDayState).timeline }

/-! ## Theorems: basic properties of the date order -/

theorem IsoDate.le_refl (a : IsoDate) : le a a := by unfold le; omega

theorem IsoDate.le_trans {a b c : IsoDate} (hab : le a b) (hbc : le b c) : le a c := by
  unfold le at *; omega

theorem IsoDate.le_total (a b : IsoDate) : le a b ∨ le b a := by
  unfold le; omega

theorem IsoDate.le_antisymm {a b : IsoDate} (hab : le a b) (hba : le b a) : a = b := by
  unfold le at *
  have hy : a.year = b.year ∧ a.month = b.month ∧ a.day = b.day := by omega
  cases a; cases b
  simp_all

theorem IsoDate.lt_iff_le_and_ne {a b : IsoDate} : lt a b ↔ le a b ∧ a ≠ b := by
  constructor
  · intro h
    refine ⟨by unfold le lt at *; omega, ?_⟩
    intro hEq
    subst hEq
    unfold lt at h
    omega
  · rintro ⟨hle, hne⟩
    unfold le at hle
    unfold lt
    rcases hle with h | ⟨hy, h | ⟨hm, hd⟩⟩
    · omega
    · omega
    · rcases Nat.lt_or_ge a.day b.day with hlt | hge
      · omega
      · exfalso
        apply hne
        have : a.day = b.day := by omega
        cases a; cases b; simp_all

theorem IsoDate.lt_irrefl (a : IsoDate) : ¬ lt a a := by unfold lt; omega

theorem IsoDate.ne_of_lt {a b : IsoDate} (h : lt a b) : a ≠ b := fun hEq => by
  subst hEq; exact lt_irrefl a h

/-! ## Helper lemmas: calendar -/


theorem monthKey_mono {a b : IsoDate} (h : IsoDate.le a b) :
    keyLe (monthKey a) (monthKey b) := by
  unfold IsoDate.le at h
  unfold keyLe monthKey IsoDate.getUTCMonth
  simp only []
  omega

theorem keyLe_antisymm {k k' : Nat × Nat} (h : keyLe k k') (h' : keyLe k' k) : k = k' := by
  unfold keyLe at *
  have h1 : k.1 = k'.1 ∧ k.2 = k'.2 := by omega
  exact Prod.ext h1.1 h1.2

theorem buildSchedulesGo_snd (l : List IsoDate) (cur : Option (Nat × Nat)) :
    (buildSchedulesGo l cur).2 =
      (buildSchedulesGo l cur).1.filter fun day => isQuarterStartMonth day.getUTCMonth := by
  induction l generalizing cur with
  | nil => simp [buildSchedulesGo]
  | cons day rest ih =>
    simp only [buildSchedulesGo]
    split
    · exact ih cur
    · by_cases hq : isQuarterStartMonth day.getUTCMonth
      · simp [hq, ih (some (monthKey day))]
      · simp [hq, ih (some (monthKey day))]


theorem buildSchedulesGo_fst_mem (l : List IsoDate) (hsorted : List.Pairwise IsoDate.le l)
    (cur : Option (Nat × Nat))
    (hcur : ∀ k, cur = some k → ∀ e ∈ l, keyLe k (monthKey e)) (d : IsoDate) :
    d ∈ (buildSchedulesGo l cur).1 ↔
      d ∈ l ∧ some (monthKey d) ≠ cur ∧
        ∀ e ∈ l, monthKey e = monthKey d → IsoDate.le d e := by
  induction l generalizing cur with
  | nil => simp [buildSchedulesGo]
  | cons day rest ih =>
    have hday : ∀ e ∈ rest, IsoDate.le day e := fun e he =>
      (List.pairwise_cons.mp hsorted).1 e he
    have hrest : List.Pairwise IsoDate.le rest := (List.pairwise_cons.mp hsorted).2
    simp only [buildSchedulesGo]
    split
    case isTrue hk =>
      -- monthKey day = cur: the head is skipped
      have hcur' : ∀ k, cur = some k → ∀ e ∈ rest, keyLe k (monthKey e) :=
        fun k hkcur e he => hcur k hkcur e (List.mem_cons_of_mem day he)
      rw [ih hrest cur hcur']
      constructor
      · rintro ⟨hmem, hne, hmin⟩
        refine ⟨List.mem_cons_of_mem day hmem, hne, ?_⟩
        intro e he hkey
        rcases List.mem_cons.mp he with rfl | he'
        · exfalso
          apply hne
          rw [← hk]
          exact congrArg some hkey.symm
        · exact hmin e he' hkey
      · rintro ⟨hmem, hne, hmin⟩
        have hdne : d ≠ day := by
          intro hEq
          apply hne
          rw [hEq]
          exact hk
        refine ⟨(List.mem_cons.mp hmem).resolve_left hdne, hne, ?_⟩
        intro e he hkey
        exact hmin e (List.mem_cons_of_mem day he) hkey
    case isFalse hk =>
      -- monthKey day ≠ cur: the head is emitted
      have hcurRest : ∀ k, (some (monthKey day) : Option (Nat × Nat)) = some k →
          ∀ e ∈ rest, keyLe k (monthKey e) := by
        intro k hkEq e he
        injection hkEq with hkEq
        exact hkEq ▸ monthKey_mono (hday e he)
      rw [List.mem_cons, ih hrest (some (monthKey day)) hcurRest]
      constructor
      · rintro (rfl | ⟨hmem, hne, hmin⟩)
        · refine ⟨List.mem_cons_self _ _, hk, ?_⟩
          intro e he _
          rcases List.mem_cons.mp he with rfl | he'
          · exact IsoDate.le_refl _
          · exact hday e he'
        · have hkd : monthKey d ≠ monthKey day := fun hEq => hne (congrArg some hEq)
          refine ⟨List.mem_cons_of_mem day hmem, ?_, ?_⟩
          · intro hEq
            cases cur with
            | none => exact Option.noConfusion hEq
            | some k =>
              have h0 : monthKey d = k := by injection hEq
              have h1 : keyLe k (monthKey day) :=
                hcur k rfl day (List.mem_cons_self day rest)
              have h2 : keyLe (monthKey day) (monthKey d) := monthKey_mono (hday d hmem)
              have h4 : keyLe (monthKey d) (monthKey day) := by rw [h0]; exact h1
              exact hkd (keyLe_antisymm h4 h2)
          · intro e he hkey
            rcases List.mem_cons.mp he with rfl | he'
            · exact absurd hkey.symm hkd
            · exact hmin e he' hkey
      · rintro ⟨hmem, hne, hmin⟩
        by_cases hdd : d = day
        · exact Or.inl hdd
        · right
          have hmem' : d ∈ rest := (List.mem_cons.mp hmem).resolve_left hdd
          have hkd : monthKey d ≠ monthKey day := by
            intro hEq
            have h1 : IsoDate.le d day := hmin day (List.mem_cons_self day rest) hEq.symm
            have h2 : IsoDate.le day d := hday d hmem'
            exact hdd (IsoDate.le_antisymm h1 h2)
          refine ⟨hmem', fun hEq => hkd (by injection hEq), ?_⟩
          intro e he hkey
          exact hmin e (List.mem_cons_of_mem day he) hkey

theorem buildTradingSchedules_fst_mem (tradingDays : List IsoDate) (d : IsoDate) :
    d ∈ (buildTradingSchedules tradingDays).1 ↔
      d ∈ tradingDays ∧
        ∀ e ∈ tradingDays, monthKey e = monthKey d → IsoDate.le d e := by
  unfold buildTradingSchedules
  have hsorted : List.Pairwise IsoDate.le (sortIsoDates tradingDays) :=
    List.sorted_insertionSort IsoDate.le tradingDays
  have hperm : List.Perm (sortIsoDates tradingDays) tradingDays :=
    List.perm_insertionSort IsoDate.le tradingDays
  rw [buildSchedulesGo_fst_mem (sortIsoDates tradingDays) hsorted none
    (fun k hk => Option.noConfusion hk) d]
  constructor
  · rintro ⟨hmem, -, hmin⟩
    exact ⟨hperm.mem_iff.mp hmem, fun e he hkey => hmin e (hperm.mem_iff.mpr he) hkey⟩
  · rintro ⟨hmem, hmin⟩
    exact ⟨hperm.mem_iff.mpr hmem, by simp,
      fun e he hkey => hmin e (hperm.mem_iff.mp he) hkey⟩

theorem buildTradingSchedules_snd_mem (tradingDays : List IsoDate) (d : IsoDate) :
    d ∈ (buildTradingSchedules tradingDays).2 ↔
      d ∈ (buildTradingSchedules tradingDays).1 ∧
        isQuarterStartMonth d.getUTCMonth = true := by
  unfold buildTradingSchedules
  rw [buildSchedulesGo_snd, List.mem_filter]

/-! ## Claims about the schedule builder -/


/-- C5: `buildTradingSchedules` marks exactly the first date observed in
each new year-month (after sorting ascending) as a contribution day —
i.e. a date is a contribution day iff it occurs in the input and is
earliest among the input dates sharing its year-month — and marks that
same date as a rebalance day exactly when its month is January, April,
July or October; the empty input yields two empty sets. In particular, on
trading dates 2024-01-02 … 2024-04-02 with at least one day per month,
contribution days include 2024-01-02, 2024-02-01, 2024-03-01, 2024-04-01,
and rebalance days include 2024-01-02 and 2024-04-01 but not
2024-03-01. -/
theorem rebalance_schedule_spec :
    buildTradingSchedules [] = ([], []) ∧
    (∀ (tradingDays : List IsoDate) (d : IsoDate),
      d ∈ (buildTradingSchedules tradingDays).1 ↔
        d ∈ tradingDays ∧
          ∀ e ∈ tradingDays, monthKey e = monthKey d → IsoDate.le d e) ∧
    (∀ (tradingDays : List IsoDate) (d : IsoDate),
      d ∈ (buildTradingSchedules tradingDays).2 ↔
        d ∈ (buildTradingSchedules tradingDays).1 ∧
          isQuarterStartMonth d.getUTCMonth = true) ∧
    ((⟨2024, 1, 2⟩ : IsoDate) ∈ (buildTradingSchedules scheduleExampleDays).1 ∧
     (⟨2024, 2, 1⟩ : IsoDate) ∈ (buildTradingSchedules scheduleExampleDays).1 ∧
     (⟨2024, 3, 1⟩ : IsoDate) ∈ (buildTradingSchedules scheduleExampleDays).1 ∧
     (⟨2024, 4, 1⟩ : IsoDate) ∈ (buildTradingSchedules scheduleExampleDays).1) ∧
    ((⟨2024, 1, 2⟩ : IsoDate) ∈ (buildTradingSchedules scheduleExampleDays).2 ∧
     (⟨2024, 4, 1⟩ : IsoDate) ∈ (buildTradingSchedules scheduleExampleDays).2 ∧
     (⟨2024, 3, 1⟩ : IsoDate) ∉ (buildTradingSchedules scheduleExampleDays).2) := by
  refine ⟨by decide, buildTradingSchedules_fst_mem, buildTradingSchedules_snd_mem, ?_, ?_⟩
  · exact ⟨by decide, by decide, by decide, by decide⟩
  · exact ⟨by decide, by decide, by decide⟩

/-- C10: every rebalance day returned by `buildTradingSchedules` is also
a contribution day. -/
theorem rebalance_days_subset_contribution_days
    (tradingDays : List IsoDate) (d : IsoDate)
    (h : d ∈ (buildTradingSchedules tradingDays).2) :
    d ∈ (buildTradingSchedules tradingDays).1 :=
  ((buildTradingSchedules_snd_mem tradingDays d).mp h).1

/-- Witness for C10 at the concrete example schedule. -/
theorem rebalance_days_subset_contribution_days_witness :
    (⟨2024, 4, 1⟩ : IsoDate) ∈ (buildTradingSchedules scheduleExampleDays).2 ∧
    (⟨2024, 4, 1⟩ : IsoDate) ∈ (buildTradingSchedules scheduleExampleDays).1 :=
  ⟨by decide, rebalance_days_subset_contribution_days scheduleExampleDays _ (by decide)⟩

/-! ## Claims about the investable stock budget -/

/-- C4: for portfolio value `P`, total target stock weight `W` and
requested minimum reserve `R ≥ 0`, the investable budget is
`clamp(P*W, 0, max(0, P - min(R, P)))`; it is 0 whenever `P ≤ 0` or
`W ≤ 0`, and it never exceeds `P - min(R, P)`. -/
theorem computeDesiredStockBudget_spec (P W R : ℚ) (hR : 0 ≤ R) :
    computeDesiredStockBudget P W R = max 0 (min (P * W) (max 0 (P - min R P))) ∧
    ((P ≤ 0 ∨ W ≤ 0) → computeDesiredStockBudget P W R = 0) ∧
    computeDesiredStockBudget P W R ≤ P - min R P := by
  have hclamp : computeDesiredStockBudget P W R =
      max 0 (min (P * W) (max 0 (P - min R P))) := by
    unfold computeDesiredStockBudget
    split
    case isTrue h =>
      rcases h with hP | hW
      · have hmin : min R P = P := min_eq_right (le_trans hP hR)
        rw [hmin]
        simp
      · rcases le_or_lt P 0 with hP | hP
        · have hmin : min R P = P := min_eq_right (le_trans hP hR)
          rw [hmin]
          simp
        · have hPW : P * W ≤ 0 := mul_nonpos_of_nonneg_of_nonpos (le_of_lt hP) hW
          have : min (P * W) (max 0 (P - min R P)) ≤ 0 := le_trans (min_le_left _ _) hPW
          exact (max_eq_left this).symm
    case isFalse h => rfl
  refine ⟨hclamp, fun h => ?_, ?_⟩
  · unfold computeDesiredStockBudget
    simp [h]
  · rw [hclamp]
    rcases le_or_lt P 0 with hP | hP
    · have hmin : min R P = P := min_eq_right (le_trans hP hR)
      rw [hmin]
      simp
    · have h1 : (0 : ℚ) ≤ P - min R P := by
        have : min R P ≤ P := min_le_right _ _
        linarith
      have h2 : max 0 (P - min R P) = P - min R P := max_eq_right h1
      calc max 0 (min (P * W) (max 0 (P - min R P)))
          ≤ max 0 (max 0 (P - min R P)) :=
            max_le_max (le_refl 0) (min_le_right _ _)
        _ = P - min R P := by rw [h2, max_eq_right h1]

/-- Witness for C4 at `P = 200`, `W = 1/2`, `R = 50`. -/
theorem computeDesiredStockBudget_spec_witness :
    (0 : ℚ) ≤ 50 ∧
    (computeDesiredStockBudget 200 (1/2) 50 =
        max 0 (min (200 * (1/2)) (max 0 (200 - min 50 200))) ∧
      (((200 : ℚ) ≤ 0 ∨ (1/2 : ℚ) ≤ 0) → computeDesiredStockBudget 200 (1/2) 50 = 0) ∧
      computeDesiredStockBudget 200 (1/2) 50 ≤ 200 - min 50 200) :=
  ⟨by norm_num, computeDesiredStockBudget_spec 200 (1/2) 50 (by norm_num)⟩

/-! ## Claims about the time-weighted daily returns -/

/-- C6: for an N-point value series the return sequence has length N−1;
the entry for day `t` (at sequence index `t-1`) is
`(V[t] − V[t−1] − flow[t]) / V[t−1]`, with 0 substituted when
`V[t−1] ≤ 0` (over `ℚ` the quotient is then always finite, so the
source's non-finite fallback cannot fire); and on values `[100,110,170]`
with net flows `[100,0,50]` the entries are `0.1` and `10/110`. -/
theorem calculateTimeWeightedDailyReturns_spec :
    (∀ values netFlows : List ℚ,
      (calculateTimeWeightedDailyReturns values netFlows).length = values.length - 1) ∧
    (∀ (values netFlows : List ℚ) (t : Nat), 0 < t → t < values.length →
      (calculateTimeWeightedDailyReturns values netFlows).getD (t - 1) 0 =
        if values.getD (t - 1) 0 ≤ 0 then 0
        else (values.getD t 0 - values.getD (t - 1) 0 - netFlows.getD t 0) /
          values.getD (t - 1) 0) ∧
    calculateTimeWeightedDailyReturns [100, 110, 170] [100, 0, 50] = [1/10, 1/11] := by
  refine ⟨?_, ?_, ?_⟩
  · intro values netFlows
    simp [calculateTimeWeightedDailyReturns]
  · intro values netFlows t ht htlen
    have hidx : t - 1 < values.length - 1 := by omega
    unfold calculateTimeWeightedDailyReturns
    rw [List.getD_eq_getElem?_getD, List.getElem?_map, List.getElem?_range hidx]
    have ht1 : t - 1 + 1 = t := by omega
    simp only [Option.map_some', Option.getD_some, ht1, Nat.add_sub_cancel]
  · show calculateTimeWeightedDailyReturns [100, 110, 170] [100, 0, 50] = [1/10, 1/11]
    unfold calculateTimeWeightedDailyReturns
    norm_num [List.range_succ]

/-- Witness for C6's entry formula at `t = 2` on the concrete series. -/
theorem calculateTimeWeightedDailyReturns_spec_witness :
    0 < 2 ∧ 2 < ([100, 110, 170] : List ℚ).length ∧
    (calculateTimeWeightedDailyReturns [100, 110, 170] [100, 0, 50]).getD (2 - 1) 0 =
      if ([100, 110, 170] : List ℚ).getD (2 - 1) 0 ≤ 0 then 0
      else (([100, 110, 170] : List ℚ).getD 2 0 -
          ([100, 110, 170] : List ℚ).getD (2 - 1) 0 -
          ([100, 0, 50] : List ℚ).getD 2 0) /
        ([100, 110, 170] : List ℚ).getD (2 - 1) 0 :=
  ⟨by decide, by decide,
    calculateTimeWeightedDailyReturns_spec.2.1 [100, 110, 170] [100, 0, 50] 2
      (by decide) (by decide)⟩

/-! ## Claims about request validation -/






/-- C8 counterexample: a request whose allocation weights sum to 100.05
passes validation although 100.05 lies outside (0, 100], so "valid only
when the weight sum lies in (0, 100]" is false of the code. -/
theorem weight_sum_contract_counterexample :
    simulationRequestAccepts requestWeightSum10005 = true ∧
    ¬(totalTargetWeight requestWeightSum10005.allocations ≤ 100) := by
  constructor
  · simp only [simulationRequestAccepts, requestWeightSum10005, requestWithAllocations,
      allocationSchemaAccepts, totalTargetWeight, IsoDate.lt, List.all_cons, List.all_nil,
      List.foldl, Bool.and_eq_true, decide_eq_true_eq]
    norm_num
    decide
  · simp only [requestWeightSum10005, requestWithAllocations, totalTargetWeight, List.foldl]
    norm_num

/-- C8 (amended): validation accepts weight sums of exactly 100 and of 80
and rejects a sum of 100.06; in general a request passes the schema only
if its weight sum lies in (0.05, 100.05] — the (0, 100] contract is
enforced with a ±0.05 tolerance at both ends. -/
theorem weight_sum_validation_spec :
    simulationRequestAccepts requestWeightSum100 = true ∧
    simulationRequestAccepts requestWeightSum80 = true ∧
    simulationRequestAccepts requestWeightSum10006 = false ∧
    ∀ r : SimulationRequestInput, simulationRequestAccepts r = true →
      1/20 < totalTargetWeight r.allocations ∧
        totalTargetWeight r.allocations ≤ 100 + 1/20 := by
  refine ⟨?_, ?_, ?_, ?_⟩
  · simp only [simulationRequestAccepts, requestWeightSum100, requestWithAllocations,
      allocationSchemaAccepts, totalTargetWeight, IsoDate.lt, List.all_cons, List.all_nil,
      List.foldl, Bool.and_eq_true, decide_eq_true_eq]
    norm_num
    decide
  · simp only [simulationRequestAccepts, requestWeightSum80, requestWithAllocations,
      allocationSchemaAccepts, totalTargetWeight, IsoDate.lt, List.all_cons, List.all_nil,
      List.foldl, Bool.and_eq_true, decide_eq_true_eq]
    norm_num
    decide
  · simp only [simulationRequestAccepts, requestWeightSum10006, requestWithAllocations,
      allocationSchemaAccepts, totalTargetWeight, IsoDate.lt, List.all_cons, List.all_nil,
      List.foldl, Bool.and_eq_true, decide_eq_true_eq]
    norm_num
  · intro r h
    simp only [simulationRequestAccepts, Bool.and_eq_true, decide_eq_true_eq] at h
    exact ⟨h.1.1.2, h.1.2⟩

/-- Witness for C8's general clause at the weight-sum-100 request. -/
theorem weight_sum_validation_spec_witness :
    simulationRequestAccepts requestWeightSum100 = true ∧
    (1/20 < totalTargetWeight requestWeightSum100.allocations ∧
      totalTargetWeight requestWeightSum100.allocations ≤ 100 + 1/20) :=
  ⟨weight_sum_validation_spec.1,
    weight_sum_validation_spec.2.2.2 requestWeightSum100 weight_sum_validation_spec.1⟩

/-! ## Helper lemmas: folds over allocation lists -/

theorem foldl_update_apply {α : Type} (key : α → String) (v : String → ℚ)
    (l : List α) (w : String → ℚ) (t : String) :
    (l.foldl (fun w a => Function.update w (key a) (v (key a))) w) t =
      if t ∈ l.map key then v t else w t := by
  induction l generalizing w with
  | nil => simp
  | cons a l ih =>
    simp only [List.foldl_cons, List.map_cons, List.mem_cons]
    rw [ih]
    by_cases h : t ∈ l.map key
    · simp [h]
    · by_cases hk : t = key a
      · simp [h, hk, Function.update_apply]
      · simp [h, hk, Function.update_apply]

theorem foldl_add_eq {α : Type} (g : α → ℚ) (l : List α) (c : ℚ) :
    l.foldl (fun s a => s + g a) c = c + (l.map g).sum := by
  induction l generalizing c with
  | nil => simp
  | cons a l ih => simp [ih, add_assoc]

theorem computeStockValue_eq_sum (day : IsoDate) (allocations : List NormalizedAllocation)
    (holdings : Holdings) (closeMaps : String → IsoDate → Option ℚ) :
    computeStockValue day allocations holdings closeMaps =
      (allocations.map fun a =>
        holdings a.ticker * ((closeMaps a.ticker day).getD 0)).sum := by
  unfold computeStockValue
  rw [foldl_add_eq]
  simp

theorem getTotalStockWeight_eq_sum (allocations : List NormalizedAllocation) :
    getTotalStockWeight allocations = (allocations.map fun a => a.weight).sum := by
  unfold getTotalStockWeight
  rw [foldl_add_eq]
  simp

theorem computeStockValue_nonneg (day : IsoDate) (allocations : List NormalizedAllocation)
    (holdings : Holdings) (closeMaps : String → IsoDate → Option ℚ)
    (hH : ∀ a ∈ allocations, 0 ≤ holdings a.ticker)
    (hC : ∀ a ∈ allocations, 0 ≤ (closeMaps a.ticker day).getD 0) :
    0 ≤ computeStockValue day allocations holdings closeMaps := by
  rw [computeStockValue_eq_sum]
  apply List.sum_nonneg
  intro x hx
  rcases List.mem_map.mp hx with ⟨a, ha, rfl⟩
  exact mul_nonneg (hH a ha) (hC a ha)

theorem position_le_stockValue (day : IsoDate) (allocations : List NormalizedAllocation)
    (holdings : Holdings) (closeMaps : String → IsoDate → Option ℚ)
    (hH : ∀ a ∈ allocations, 0 ≤ holdings a.ticker)
    (hC : ∀ a ∈ allocations, 0 ≤ (closeMaps a.ticker day).getD 0)
    (a : NormalizedAllocation) (ha : a ∈ allocations) :
    holdings a.ticker * ((closeMaps a.ticker day).getD 0) ≤
      computeStockValue day allocations holdings closeMaps := by
  rw [computeStockValue_eq_sum]
  apply List.single_le_sum
  · intro x hx
    rcases List.mem_map.mp hx with ⟨b, hb, rfl⟩
    exact mul_nonneg (hH b hb) (hC b hb)
  · exact List.mem_map.mpr ⟨a, ha, rfl⟩

theorem computeDesiredStockBudget_nonneg (P W R : ℚ) :
    0 ≤ computeDesiredStockBudget P W R := by
  unfold computeDesiredStockBudget
  split
  · exact le_refl 0
  · exact le_max_left 0 _

theorem getCurrentWeights_apply (day : IsoDate) (allocations : List NormalizedAllocation)
    (holdings : Holdings) (closeMaps : String → IsoDate → Option ℚ) (portfolioValue : ℚ)
    (a : NormalizedAllocation) (ha : a ∈ allocations) :
    getCurrentWeights day allocations holdings closeMaps portfolioValue a.ticker =
      if 0 < portfolioValue then
        holdings a.ticker * ((closeMaps a.ticker day).getD 0) / portfolioValue
      else 0 := by
  have h := foldl_update_apply (fun x : NormalizedAllocation => x.ticker)
    (fun t => if 0 < portfolioValue then
        holdings t * ((closeMaps t day).getD 0) / portfolioValue
      else 0)
    allocations (fun _ => 0) a.ticker
  have hmem : a.ticker ∈ allocations.map (fun x : NormalizedAllocation => x.ticker) :=
    List.mem_map.mpr ⟨a, ha, rfl⟩
  rw [if_pos hmem] at h
  exact h

/-! ## Claim C2: the drift trigger -/

set_option maxHeartbeats 1000000 in
/-- C2: with positive portfolio value `P` (and the simulation's invariant
that holdings and closes are nonnegative), `shouldRebalance` returns true
iff the current cash weight drifts from the target cash weight
`(P - B)/P` by more than 0.5%, or some allocation's current weight
`shares*close/P` drifts from its target `B*(weight/totalWeight)/P` by
more than 0.5%, where `B` is the investable budget. -/
theorem shouldRebalance_spec (day : IsoDate) (allocations : List NormalizedAllocation)
    (holdings : Holdings) (closeMaps : String → IsoDate → Option ℚ)
    (cashValue minimumCashReserve : ℚ)
    (hP : 0 < computeStockValue day allocations holdings closeMaps + cashValue)
    (hH : ∀ a ∈ allocations, 0 ≤ holdings a.ticker)
    (hC : ∀ a ∈ allocations, 0 ≤ (closeMaps a.ticker day).getD 0) :
    shouldRebalance day allocations holdings closeMaps cashValue minimumCashReserve = true ↔
      (WEIGHT_DRIFT_TOLERANCE <
          |cashValue / (computeStockValue day allocations holdings closeMaps + cashValue) -
            ((computeStockValue day allocations holdings closeMaps + cashValue) -
                computeDesiredStockBudget
                  (computeStockValue day allocations holdings closeMaps + cashValue)
                  (getTotalStockWeight allocations) minimumCashReserve) /
              (computeStockValue day allocations holdings closeMaps + cashValue)| ∨
        ∃ a ∈ allocations,
          WEIGHT_DRIFT_TOLERANCE <
            |holdings a.ticker * ((closeMaps a.ticker day).getD 0) /
                (computeStockValue day allocations holdings closeMaps + cashValue) -
              computeDesiredStockBudget
                  (computeStockValue day allocations holdings closeMaps + cashValue)
                  (getTotalStockWeight allocations) minimumCashReserve *
                (a.weight / getTotalStockWeight allocations) /
                (computeStockValue day allocations holdings closeMaps + cashValue)|) := by
  simp only [shouldRebalance, computePortfolioValue]
  set S := computeStockValue day allocations holdings closeMaps with hS
  set P := S + cashValue with hPdef
  set W := getTotalStockWeight allocations with hW
  set B := computeDesiredStockBudget P W minimumCashReserve with hB
  rw [if_neg (not_le.mpr hP)]
  simp only [if_pos hP]
  by_cases h1 : WEIGHT_DRIFT_TOLERANCE < |cashValue / P - (P - B) / P|
  · rw [if_pos h1]
    constructor
    · intro _
      exact Or.inl h1
    · intro _
      rfl
  · rw [if_neg h1]
    by_cases h2 : W ≤ 0 ∨ B ≤ 0
    · rw [if_pos h2]
      constructor
      · intro hfalse
        exact absurd hfalse (by simp)
      · rintro (hcw | ⟨a, ha, hdrift⟩)
        · exact absurd hcw h1
        · exfalso
          have hB0 : B = 0 := by
            rcases h2 with hW0 | hB0
            · rw [hB]
              unfold computeDesiredStockBudget
              rw [if_pos (Or.inr hW0)]
            · exact le_antisymm hB0
                (hB ▸ computeDesiredStockBudget_nonneg P W minimumCashReserve)
          have hdrift9 : WEIGHT_DRIFT_TOLERANCE <
              |holdings a.ticker * ((closeMaps a.ticker day).getD 0) / P -
                B * (a.weight / W) / P| := hdrift
          rw [hB0] at h1 hdrift9
          have hSnonneg : 0 ≤ S :=
            hS ▸ computeStockValue_nonneg day allocations holdings closeMaps hH hC
          have hstock : S / P ≤ WEIGHT_DRIFT_TOLERANCE := by
            have hPne : P ≠ 0 := ne_of_gt hP
            have hcash : cashValue / P - (P - 0) / P = -(S / P) := by
              rw [hPdef]
              field_simp
            rw [hcash, abs_neg, abs_of_nonneg (div_nonneg hSnonneg (le_of_lt hP))] at h1
            exact not_lt.mp h1
          have hposnn : 0 ≤ holdings a.ticker * ((closeMaps a.ticker day).getD 0) / P :=
            div_nonneg (mul_nonneg (hH a ha) (hC a ha)) (le_of_lt hP)
          have hle : holdings a.ticker * ((closeMaps a.ticker day).getD 0) / P ≤ S / P :=
            (div_le_div_iff_of_pos_right hP).mpr
              (hS ▸ position_le_stockValue day allocations holdings closeMaps hH hC a ha)
          rw [zero_mul, zero_div, sub_zero, abs_of_nonneg hposnn] at hdrift9
          linarith
    · rw [if_neg h2]
      rw [List.any_eq_true]
      simp only [decide_eq_true_eq]
      constructor
      · rintro ⟨a, ha, hdrift⟩
        right
        refine ⟨a, ha, ?_⟩
        rw [getCurrentWeights_apply day allocations holdings closeMaps P a ha,
          if_pos hP] at hdrift
        exact hdrift
      · rintro (hcw | ⟨a, ha, hdrift⟩)
        · exact absurd hcw h1
        · refine ⟨a, ha, ?_⟩
          rw [getCurrentWeights_apply day allocations holdings closeMaps P a ha, if_pos hP]
          exact hdrift

/-! ## Claim C3: rebalance execution -/


theorem rebalance_foldl_snd (day : IsoDate) (W B : ℚ)
    (closeMaps : String → IsoDate → Option ℚ) (l : List NormalizedAllocation)
    (h : Holdings) (c : ℚ) :
    (l.foldl (rebalanceStep day W B closeMaps) (h, c)).2 =
      c + ((l.filter (hasPositiveClose closeMaps day)).map
        (fun a => B * (a.weight / W))).sum := by
  induction l generalizing h c with
  | nil => simp
  | cons a l ih =>
    simp only [List.foldl_cons, List.filter_cons]
    cases hcm : closeMaps a.ticker day with
    | none =>
      have hfc : hasPositiveClose closeMaps day a = false := by
        unfold hasPositiveClose
        rw [hcm]
      have hstep : rebalanceStep day W B closeMaps (h, c) a = (h, c) := by
        unfold rebalanceStep
        rw [hcm]
      rw [hfc, hstep]
      simp only [Bool.false_eq_true, if_false]
      exact ih h c
    | some p =>
      by_cases hp : p ≤ 0
      · have hfc : hasPositiveClose closeMaps day a = false := by
          unfold hasPositiveClose
          rw [hcm]
          simp [not_lt.mpr hp]
        have hstep : rebalanceStep day W B closeMaps (h, c) a = (h, c) := by
          unfold rebalanceStep
          rw [hcm]
          exact if_pos hp
        rw [hfc, hstep]
        simp only [Bool.false_eq_true, if_false]
        exact ih h c
      · have hfc : hasPositiveClose closeMaps day a = true := by
          unfold hasPositiveClose
          rw [hcm]
          simp [not_le.mp hp]
        have hstep : rebalanceStep day W B closeMaps (h, c) a =
            (Function.update h a.ticker (B * (a.weight / W) / p),
              c + B * (a.weight / W)) := by
          unfold rebalanceStep
          rw [hcm]
          exact if_neg hp
        rw [hfc, hstep]
        simp only [if_true, List.map_cons, List.sum_cons]
        rw [ih]
        ring

theorem rebalance_foldl_fst_notmem (day : IsoDate) (W B : ℚ)
    (closeMaps : String → IsoDate → Option ℚ) (l : List NormalizedAllocation)
    (h : Holdings) (c : ℚ) (t : String)
    (ht : t ∉ l.map fun a => a.ticker) :
    (l.foldl (rebalanceStep day W B closeMaps) (h, c)).1 t = h t := by
  induction l generalizing h c with
  | nil => simp
  | cons a l ih =>
    simp only [List.map_cons, List.mem_cons, not_or] at ht
    simp only [List.foldl_cons]
    cases hcm : closeMaps a.ticker day with
    | none =>
      have hstep : rebalanceStep day W B closeMaps (h, c) a = (h, c) := by
        unfold rebalanceStep
        rw [hcm]
      rw [hstep]
      exact ih h c ht.2
    | some p =>
      by_cases hp : p ≤ 0
      · have hstep : rebalanceStep day W B closeMaps (h, c) a = (h, c) := by
          unfold rebalanceStep
          rw [hcm]
          exact if_pos hp
        rw [hstep]
        exact ih h c ht.2
      · have hstep : rebalanceStep day W B closeMaps (h, c) a =
            (Function.update h a.ticker (B * (a.weight / W) / p),
              c + B * (a.weight / W)) := by
          unfold rebalanceStep
          rw [hcm]
          exact if_neg hp
        rw [hstep]
        rw [ih _ _ ht.2]
        exact Function.update_noteq ht.1 _ h

theorem rebalance_foldl_fst_mem (day : IsoDate) (W B : ℚ)
    (closeMaps : String → IsoDate → Option ℚ) (l : List NormalizedAllocation)
    (hnodup : (l.map fun a => a.ticker).Nodup)
    (a : NormalizedAllocation) (ha : a ∈ l) (h : Holdings) (c : ℚ) :
    ((∀ p, closeMaps a.ticker day = some p → 0 < p →
        (l.foldl (rebalanceStep day W B closeMaps) (h, c)).1 a.ticker =
          B * (a.weight / W) / p) ∧
      (hasPositiveClose closeMaps day a = false →
        (l.foldl (rebalanceStep day W B closeMaps) (h, c)).1 a.ticker = h a.ticker)) := by
  induction l generalizing h c with
  | nil => exact absurd ha (List.not_mem_nil a)
  | cons b l ih =>
    simp only [List.map_cons, List.nodup_cons] at hnodup
    simp only [List.foldl_cons]
    rcases List.mem_cons.mp ha with rfl | ha'
    · -- a is the head: its own update survives (its ticker is not written again)
      constructor
      · intro p hcm hp
        have hstep : rebalanceStep day W B closeMaps (h, c) a =
            (Function.update h a.ticker (B * (a.weight / W) / p),
              c + B * (a.weight / W)) := by
          unfold rebalanceStep
          rw [hcm]
          exact if_neg (not_le.mpr hp)
        rw [hstep, rebalance_foldl_fst_notmem day W B closeMaps l _ _ _ hnodup.1]
        exact Function.update_same _ _ _
      · intro hfc
        unfold hasPositiveClose at hfc
        have hstep : rebalanceStep day W B closeMaps (h, c) a = (h, c) := by
          unfold rebalanceStep
          cases hcm : closeMaps a.ticker day with
          | none => rfl
          | some p =>
            rw [hcm] at hfc
            simp only [decide_eq_false_iff_not, not_lt] at hfc
            exact if_pos hfc
        rw [hstep, rebalance_foldl_fst_notmem day W B closeMaps l _ _ _ hnodup.1]
    · -- a is in the tail: the head's write is to a different ticker
      have hne : b.ticker ≠ a.ticker := by
        intro hEq
        exact hnodup.1 (hEq ▸ List.mem_map.mpr ⟨a, ha', rfl⟩)
      have hreads : ∀ (h' : Holdings) (c' : ℚ), h' a.ticker = h a.ticker →
          ((∀ p, closeMaps a.ticker day = some p → 0 < p →
              (l.foldl (rebalanceStep day W B closeMaps) (h', c')).1 a.ticker =
                B * (a.weight / W) / p) ∧
            (hasPositiveClose closeMaps day a = false →
              (l.foldl (rebalanceStep day W B closeMaps) (h', c')).1 a.ticker =
                h a.ticker)) := by
        intro h' c' hval
        have := ih hnodup.2 ha' h' c'
        exact ⟨this.1, fun hfc => hval ▸ this.2 hfc⟩
      cases hcm : closeMaps b.ticker day with
      | none =>
        have hstep : rebalanceStep day W B closeMaps (h, c) b = (h, c) := by
          unfold rebalanceStep
          rw [hcm]
        rw [hstep]
        exact ih hnodup.2 ha' h c
      | some p =>
        by_cases hp : p ≤ 0
        · have hstep : rebalanceStep day W B closeMaps (h, c) b = (h, c) := by
            unfold rebalanceStep
            rw [hcm]
            exact if_pos hp
          rw [hstep]
          exact ih hnodup.2 ha' h c
        · have hstep : rebalanceStep day W B closeMaps (h, c) b =
              (Function.update h b.ticker (B * (b.weight / W) / p),
                c + B * (b.weight / W)) := by
            unfold rebalanceStep
            rw [hcm]
            exact if_neg hp
          rw [hstep]
          exact hreads _ _ (Function.update_noteq (fun hEq => hne hEq.symm) _ h)

set_option maxHeartbeats 1000000 in
/-- C3: when a rebalance executes with positive portfolio value `P`: if
the recomputed budget `B ≤ 0` or the total weight `W ≤ 0`, every
allocation's shares become 0 and cash becomes `P` (full liquidation);
otherwise every allocation with a positive close `p` gets exactly
`B*(weight/W)/p` shares (a full re-target), allocations without a
positive close keep their prior shares, and the new cash is
`max 0 (P - Σ targeted values)` where the sum ranges over the priced
allocations. -/
theorem rebalancePortfolio_spec (day : IsoDate) (allocations : List NormalizedAllocation)
    (holdings : Holdings) (closeMaps : String → IsoDate → Option ℚ)
    (cashValue minimumCashReserve : ℚ)
    (hP : 0 < computeStockValue day allocations holdings closeMaps + cashValue)
    (hnodup : (allocations.map fun a => a.ticker).Nodup) :
    ((computeDesiredStockBudget
          (computeStockValue day allocations holdings closeMaps + cashValue)
          (getTotalStockWeight allocations) minimumCashReserve ≤ 0 ∨
        getTotalStockWeight allocations ≤ 0) →
      (∀ a ∈ allocations,
        (rebalancePortfolio day allocations holdings closeMaps cashValue
            minimumCashReserve).1 a.ticker = 0) ∧
      (rebalancePortfolio day allocations holdings closeMaps cashValue
          minimumCashReserve).2 =
        computeStockValue day allocations holdings closeMaps + cashValue) ∧
    (0 < computeDesiredStockBudget
          (computeStockValue day allocations holdings closeMaps + cashValue)
          (getTotalStockWeight allocations) minimumCashReserve →
      0 < getTotalStockWeight allocations →
      (∀ a ∈ allocations, ∀ p, closeMaps a.ticker day = some p → 0 < p →
        (rebalancePortfolio day allocations holdings closeMaps cashValue
            minimumCashReserve).1 a.ticker =
          computeDesiredStockBudget
              (computeStockValue day allocations holdings closeMaps + cashValue)
              (getTotalStockWeight allocations) minimumCashReserve *
            (a.weight / getTotalStockWeight allocations) / p) ∧
      (∀ a ∈ allocations, hasPositiveClose closeMaps day a = false →
        (rebalancePortfolio day allocations holdings closeMaps cashValue
            minimumCashReserve).1 a.ticker = holdings a.ticker) ∧
      (rebalancePortfolio day allocations holdings closeMaps cashValue
          minimumCashReserve).2 =
        max 0 ((computeStockValue day allocations holdings closeMaps + cashValue) -
          ((allocations.filter (hasPositiveClose closeMaps day)).map
            (fun a => computeDesiredStockBudget
                (computeStockValue day allocations holdings closeMaps + cashValue)
                (getTotalStockWeight allocations) minimumCashReserve *
              (a.weight / getTotalStockWeight allocations))).sum)) := by
  simp only [rebalancePortfolio, computePortfolioValue]
  rw [if_neg (not_le.mpr hP)]
  by_cases h2 : computeDesiredStockBudget
      (computeStockValue day allocations holdings closeMaps + cashValue)
      (getTotalStockWeight allocations) minimumCashReserve ≤ 0 ∨
    getTotalStockWeight allocations ≤ 0
  · rw [if_pos h2]
    constructor
    · intro _
      constructor
      · intro a ha
        have h := foldl_update_apply (fun x : NormalizedAllocation => x.ticker)
          (fun _ => 0) allocations holdings a.ticker
        rw [if_pos (List.mem_map.mpr ⟨a, ha, rfl⟩)] at h
        exact h
      · rfl
    · intro hB hW
      rcases h2 with h2 | h2
      · exact absurd hB (not_lt.mpr h2)
      · exact absurd hW (not_lt.mpr h2)
  · rw [if_neg h2]
    constructor
    · intro h2'
      exact absurd h2' h2
    · intro hB hW
      refine ⟨?_, ?_, ?_⟩
      · intro a ha p hcm hp
        exact (rebalance_foldl_fst_mem day (getTotalStockWeight allocations) _ closeMaps
          allocations hnodup a ha holdings 0).1 p hcm hp
      · intro a ha hfc
        exact (rebalance_foldl_fst_mem day (getTotalStockWeight allocations) _ closeMaps
          allocations hnodup a ha holdings 0).2 hfc
      · rw [rebalance_foldl_snd, zero_add]





/-- Witness for C2 at the concrete fixture (cash 100, reserve 0). -/
theorem shouldRebalance_spec_witness :
    (0 < computeStockValue witnessDay witnessAllocations witnessHoldings witnessCloseMaps
        + 100) ∧
    (∀ a ∈ witnessAllocations, 0 ≤ witnessHoldings a.ticker) ∧
    (∀ a ∈ witnessAllocations, 0 ≤ (witnessCloseMaps a.ticker witnessDay).getD 0) ∧
    (shouldRebalance witnessDay witnessAllocations witnessHoldings witnessCloseMaps
        100 0 = true ↔
      (WEIGHT_DRIFT_TOLERANCE <
          |(100 : ℚ) / (computeStockValue witnessDay witnessAllocations witnessHoldings
              witnessCloseMaps + 100) -
            ((computeStockValue witnessDay witnessAllocations witnessHoldings
                witnessCloseMaps + 100) -
                computeDesiredStockBudget
                  (computeStockValue witnessDay witnessAllocations witnessHoldings
                    witnessCloseMaps + 100)
                  (getTotalStockWeight witnessAllocations) 0) /
              (computeStockValue witnessDay witnessAllocations witnessHoldings
                witnessCloseMaps + 100)| ∨
        ∃ a ∈ witnessAllocations,
          WEIGHT_DRIFT_TOLERANCE <
            |witnessHoldings a.ticker * ((witnessCloseMaps a.ticker witnessDay).getD 0) /
                (computeStockValue witnessDay witnessAllocations witnessHoldings
                  witnessCloseMaps + 100) -
              computeDesiredStockBudget
                  (computeStockValue witnessDay witnessAllocations witnessHoldings
                    witnessCloseMaps + 100)
                  (getTotalStockWeight witnessAllocations) 0 *
                (a.weight / getTotalStockWeight witnessAllocations) /
                (computeStockValue witnessDay witnessAllocations witnessHoldings
                  witnessCloseMaps + 100)|)) :=
  ⟨by norm_num [computeStockValue, witnessAllocations, witnessHoldings, witnessCloseMaps],
   fun a _ => by norm_num [witnessHoldings],
   fun a _ => by norm_num [witnessCloseMaps],
   shouldRebalance_spec witnessDay witnessAllocations witnessHoldings witnessCloseMaps 100 0
     (by norm_num [computeStockValue, witnessAllocations, witnessHoldings, witnessCloseMaps])
     (fun a _ => by norm_num [witnessHoldings])
     (fun a _ => by norm_num [witnessCloseMaps])⟩

/-- Witness for C3 at the concrete fixture (cash 100, reserve 0). -/
theorem rebalancePortfolio_spec_witness :
    (0 < computeStockValue witnessDay witnessAllocations witnessHoldings witnessCloseMaps
        + 100) ∧
    (witnessAllocations.map fun a => a.ticker).Nodup ∧
    (((computeDesiredStockBudget
          (computeStockValue witnessDay witnessAllocations witnessHoldings witnessCloseMaps
            + 100)
          (getTotalStockWeight witnessAllocations) 0 ≤ 0 ∨
        getTotalStockWeight witnessAllocations ≤ 0) →
      (∀ a ∈ witnessAllocations,
        (rebalancePortfolio witnessDay witnessAllocations witnessHoldings witnessCloseMaps
            100 0).1 a.ticker = 0) ∧
      (rebalancePortfolio witnessDay witnessAllocations witnessHoldings witnessCloseMaps
          100 0).2 =
        computeStockValue witnessDay witnessAllocations witnessHoldings witnessCloseMaps
          + 100) ∧
    (0 < computeDesiredStockBudget
          (computeStockValue witnessDay witnessAllocations witnessHoldings witnessCloseMaps
            + 100)
          (getTotalStockWeight witnessAllocations) 0 →
      0 < getTotalStockWeight witnessAllocations →
      (∀ a ∈ witnessAllocations, ∀ p, witnessCloseMaps a.ticker witnessDay = some p →
        0 < p →
        (rebalancePortfolio witnessDay witnessAllocations witnessHoldings witnessCloseMaps
            100 0).1 a.ticker =
          computeDesiredStockBudget
              (computeStockValue witnessDay witnessAllocations witnessHoldings
                witnessCloseMaps + 100)
              (getTotalStockWeight witnessAllocations) 0 *
            (a.weight / getTotalStockWeight witnessAllocations) / p) ∧
      (∀ a ∈ witnessAllocations, hasPositiveClose witnessCloseMaps witnessDay a = false →
        (rebalancePortfolio witnessDay witnessAllocations witnessHoldings witnessCloseMaps
            100 0).1 a.ticker = witnessHoldings a.ticker) ∧
      (rebalancePortfolio witnessDay witnessAllocations witnessHoldings witnessCloseMaps
          100 0).2 =
        max 0 ((computeStockValue witnessDay witnessAllocations witnessHoldings
            witnessCloseMaps + 100) -
          ((witnessAllocations.filter (hasPositiveClose witnessCloseMaps witnessDay)).map
            (fun a => computeDesiredStockBudget
                (computeStockValue witnessDay witnessAllocations witnessHoldings
                  witnessCloseMaps + 100)
                (getTotalStockWeight witnessAllocations) 0 *
              (a.weight / getTotalStockWeight witnessAllocations))).sum))) :=
  ⟨by norm_num [computeStockValue, witnessAllocations, witnessHoldings, witnessCloseMaps],
   by simp [witnessAllocations],
   rebalancePortfolio_spec witnessDay witnessAllocations witnessHoldings witnessCloseMaps
     100 0
     (by norm_num [computeStockValue, witnessAllocations, witnessHoldings, witnessCloseMaps])
     (by simp [witnessAllocations])⟩

/-! ## Claim C7: fail-fast error handling of runSimulation -/

/-- C7: when no allocation has positive weight, `runSimulation` fails
with the configuration error for every market-data oracle — the failure
does not depend on (and therefore precedes) any market data; when some
allocation is eligible but fewer than 2 overlapping trading days exist,
it fails with the insufficient-data error. In both cases the result is
an `Except.error`, which carries no timeline: the run aborts atomically
with no partial timeline. -/
theorem runSimulation_failfast_spec (request : SimulationRequestInput)
    (fetch : String → List PricePoint) :
    ((eligibleAllocations request).length = 0 →
      ∀ fetch2 : String → List PricePoint,
        runSimulation request fetch2 = .error .configurationError) ∧
    ((eligibleAllocations request).length ≠ 0 →
      (simTradingDays request fetch).length < 2 →
      runSimulation request fetch = .error .insufficientData) := by
  constructor
  · intro h0 fetch2
    unfold runSimulation
    rw [if_pos h0]
  · intro h0 hdays
    unfold runSimulation
    rw [if_neg h0, if_pos hdays]



/-- Witness for C7: the zero-weight request fails with the configuration
error, and the one-overlapping-day request fails with the
insufficient-data error. -/
theorem runSimulation_failfast_spec_witness :
    ((eligibleAllocations requestZeroWeights).length = 0 ∧
      runSimulation requestZeroWeights fetchOnePoint = .error .configurationError) ∧
    ((eligibleAllocations requestWeightSum100).length ≠ 0 ∧
      (simTradingDays requestWeightSum100 fetchOnePoint).length < 2 ∧
      runSimulation requestWeightSum100 fetchOnePoint = .error .insufficientData) := by
  have h1 : (eligibleAllocations requestZeroWeights).length = 0 := by
    norm_num [eligibleAllocations, normalizeAllocations, requestZeroWeights,
      requestWithAllocations]
  have h2 : (eligibleAllocations requestWeightSum100).length ≠ 0 := by
    norm_num [eligibleAllocations, normalizeAllocations, requestWeightSum100,
      requestWithAllocations]
  have h3 : (simTradingDays requestWeightSum100 fetchOnePoint).length < 2 := by
    norm_num [simTradingDays, intersectDates, sortIsoDates, eligibleAllocations,
      normalizeAllocations, requestWeightSum100, requestWithAllocations, fetchOnePoint,
      List.insertionSort, List.orderedInsert]
  exact ⟨⟨h1, (runSimulation_failfast_spec requestZeroWeights fetchOnePoint).1 h1
      fetchOnePoint⟩,
    ⟨h2, h3, (runSimulation_failfast_spec requestWeightSum100 fetchOnePoint).2 h2 h3⟩⟩

/-! ## Helper lemmas: nonnegativity invariants of the day loop -/

theorem foldl_preserve {α β : Type} (P : β → Prop) (f : β → α → β) (l : List α)
    (hstep : ∀ b a, a ∈ l → P b → P (f b a)) (b : β) (hb : P b) : P (l.foldl f b) := by
  induction l generalizing b with
  | nil => exact hb
  | cons a l ih =>
    exact ih (fun b x hx hb => hstep b x (List.mem_cons_of_mem a hx) hb)
      (f b a) (hstep b a (List.mem_cons_self a l) hb)

theorem applySplitEvents_nonneg (day : IsoDate) (allocations : List NormalizedAllocation)
    (holdings : Holdings) (splitMaps : String → IsoDate → Option ℚ)
    (hH : ∀ t, 0 ≤ holdings t) :
    ∀ t, 0 ≤ applySplitEvents day allocations holdings splitMaps t := by
  unfold applySplitEvents
  refine foldl_preserve (fun h : Holdings => ∀ t, 0 ≤ h t) _ allocations ?_ holdings hH
  intro h a _ hh t
  cases hcm : splitMaps a.ticker day with
  | none => exact hh t
  | some ratio =>
    by_cases hr : ratio ≤ 0 ∨ ratio = 1
    · simp only [hcm, if_pos hr]
      exact hh t
    · simp only [hcm, if_neg hr]
      rw [Function.update_apply]
      split
      · push_neg at hr
        exact mul_nonneg (hh a.ticker) (le_of_lt hr.1)
      · exact hh t

theorem applyDividendEvents_nonneg (day : IsoDate)
    (allocations : List NormalizedAllocation) (holdings : Holdings)
    (closeMaps dividendMaps : String → IsoDate → Option ℚ)
    (dividendPolicy : DividendPolicy) (cashValue : ℚ)
    (hH : ∀ t, 0 ≤ holdings t) (hC : 0 ≤ cashValue) :
    (∀ t, 0 ≤ (applyDividendEvents day allocations holdings closeMaps dividendMaps
        dividendPolicy cashValue).1 t) ∧
      0 ≤ (applyDividendEvents day allocations holdings closeMaps dividendMaps
        dividendPolicy cashValue).2 := by
  unfold applyDividendEvents
  refine foldl_preserve (fun s : Holdings × ℚ => (∀ t, 0 ≤ s.1 t) ∧ 0 ≤ s.2) _
    allocations ?_ (holdings, cashValue) ⟨hH, hC⟩
  rintro ⟨h, c⟩ a _ ⟨hh, hc⟩
  unfold dividendStep
  by_cases h1 : (dividendMaps a.ticker day).getD 0 ≤ 0
  · simp only [if_pos h1]
    exact ⟨hh, hc⟩
  · simp only [if_neg h1]
    by_cases h2 : h a.ticker ≤ 0
    · simp only [if_pos h2]
      exact ⟨hh, hc⟩
    · simp only [if_neg h2]
      by_cases h3 : h a.ticker * (dividendMaps a.ticker day).getD 0 ≤ 0
      · simp only [if_pos h3]
        exact ⟨hh, hc⟩
      · simp only [if_neg h3]
        push_neg at h1 h2 h3
        cases dividendPolicy with
        | to_cash => exact ⟨hh, by positivity⟩
        | reinvest_same_asset =>
          by_cases h4 : 0 < (closeMaps a.ticker day).getD 0
          · simp only [if_pos h4]
            refine ⟨fun t => ?_, hc⟩
            rw [Function.update_apply]
            split
            · have : 0 ≤ h a.ticker * (dividendMaps a.ticker day).getD 0 /
                  (closeMaps a.ticker day).getD 0 := by positivity
              linarith [hh a.ticker]
            · exact hh t
          · simp only [if_neg h4]
            exact ⟨hh, by positivity⟩

theorem applyDailyExpenseDrag_nonneg (allocations : List NormalizedAllocation)
    (holdings : Holdings)
    (hExp : ∀ a ∈ allocations, a.expenseRatio ≤ 252)
    (hH : ∀ t, 0 ≤ holdings t) :
    ∀ t, 0 ≤ applyDailyExpenseDrag allocations holdings t := by
  unfold applyDailyExpenseDrag
  refine foldl_preserve (fun h : Holdings => ∀ t, 0 ≤ h t) _ allocations ?_ holdings hH
  intro h a ha hh t
  rw [Function.update_apply]
  split
  · have h1 : a.expenseRatio / 252 ≤ 1 := by
      rw [div_le_one (by norm_num)]
      exact hExp a ha
    have h2 : (0 : ℚ) ≤ 1 - a.expenseRatio / 252 := by linarith
    exact mul_nonneg (hh a.ticker) h2
  · exact hh t

theorem invest_foldl_bounds (amount : ℚ) (day : IsoDate) (W : ℚ)
    (closeMaps : String → IsoDate → Option ℚ) (l : List NormalizedAllocation)
    (hW : 0 < W) (hamt : 0 ≤ amount) (hw : ∀ a ∈ l, 0 ≤ a.weight)
    (h : Holdings) (c : ℚ) (hh : ∀ t, 0 ≤ h t) :
    (∀ t, 0 ≤ (l.foldl (investStep amount day W closeMaps) (h, c)).1 t) ∧
      c ≤ (l.foldl (investStep amount day W closeMaps) (h, c)).2 ∧
      (l.foldl (investStep amount day W closeMaps) (h, c)).2 ≤
        c + amount * ((l.map fun a => a.weight).sum) / W := by
  induction l generalizing h c with
  | nil =>
    refine ⟨hh, le_refl c, ?_⟩
    simp
  | cons a l ih =>
    have hwa : 0 ≤ a.weight := hw a (List.mem_cons_self a l)
    have hwl : ∀ b ∈ l, 0 ≤ b.weight := fun b hb => hw b (List.mem_cons_of_mem a hb)
    have hsum : 0 ≤ (l.map fun a => a.weight).sum := by
      apply List.sum_nonneg
      intro x hx
      rcases List.mem_map.mp hx with ⟨b, hb, rfl⟩
      exact hwl b hb
    simp only [List.foldl_cons, List.map_cons, List.sum_cons]
    cases hcm : closeMaps a.ticker day with
    | none =>
      have hstep : investStep amount day W closeMaps (h, c) a = (h, c) := by
        unfold investStep
        rw [hcm]
      rw [hstep]
      refine ⟨(ih hwl h c hh).1, (ih hwl h c hh).2.1, le_trans (ih hwl h c hh).2.2 ?_⟩
      have : (0 : ℚ) ≤ amount * a.weight / W := by positivity
      rw [mul_add, add_div]
      linarith [mul_div_assoc amount a.weight W]
    | some p =>
      by_cases hp : p ≤ 0
      · have hstep : investStep amount day W closeMaps (h, c) a = (h, c) := by
          unfold investStep
          rw [hcm]
          exact if_pos hp
        rw [hstep]
        refine ⟨(ih hwl h c hh).1, (ih hwl h c hh).2.1, le_trans (ih hwl h c hh).2.2 ?_⟩
        have : (0 : ℚ) ≤ amount * a.weight / W := by positivity
        rw [mul_add, add_div]
        linarith [mul_div_assoc amount a.weight W]
      · have hp' : 0 < p := lt_of_not_le hp
        have hstep : investStep amount day W closeMaps (h, c) a =
            (Function.update h a.ticker (h a.ticker + amount * (a.weight / W) / p),
              c + amount * (a.weight / W)) := by
          unfold investStep
          rw [hcm]
          exact if_neg hp
        rw [hstep]
        have hh' : ∀ t, 0 ≤ Function.update h a.ticker
            (h a.ticker + amount * (a.weight / W) / p) t := by
          intro t
          rw [Function.update_apply]
          split
          · have : (0 : ℚ) ≤ amount * (a.weight / W) / p := by positivity
            linarith [hh a.ticker]
          · exact hh t
        have hinc : (0 : ℚ) ≤ amount * (a.weight / W) := by positivity
        obtain ⟨ih1, ih2, ih3⟩ := ih hwl _ (c + amount * (a.weight / W)) hh'
        refine ⟨ih1, le_trans (by linarith) ih2, le_trans ih3 ?_⟩
        rw [mul_add, add_div]
        have : amount * (a.weight / W) = amount * a.weight / W := by
          rw [mul_div_assoc]
        linarith

theorem investByRelativeStockWeights_bounds (amount : ℚ) (day : IsoDate)
    (allocations : List NormalizedAllocation) (holdings : Holdings)
    (closeMaps : String → IsoDate → Option ℚ)
    (hamt : 0 ≤ amount) (hw : ∀ a ∈ allocations, 0 ≤ a.weight)
    (hh : ∀ t, 0 ≤ holdings t) :
    (∀ t, 0 ≤ (investByRelativeStockWeights amount day allocations holdings closeMaps).1 t) ∧
      0 ≤ (investByRelativeStockWeights amount day allocations holdings closeMaps).2 ∧
      (investByRelativeStockWeights amount day allocations holdings closeMaps).2 ≤
        amount := by
  unfold investByRelativeStockWeights
  by_cases h1 : amount ≤ 0
  · rw [if_pos h1]
    exact ⟨hh, le_refl 0, hamt⟩
  · rw [if_neg h1]
    by_cases h2 : getTotalStockWeight allocations ≤ 0
    · rw [if_pos h2]
      exact ⟨hh, le_refl 0, hamt⟩
    · rw [if_neg h2]
      have hW : 0 < getTotalStockWeight allocations := lt_of_not_le h2
      obtain ⟨b1, b2, b3⟩ := invest_foldl_bounds amount day
        (getTotalStockWeight allocations) closeMaps allocations hW hamt hw holdings 0 hh
      refine ⟨b1, b2, le_trans b3 ?_⟩
      rw [zero_add, ← getTotalStockWeight_eq_sum,
        mul_div_cancel_right₀ amount (ne_of_gt hW)]

theorem rebalance_foldl_fst_nonneg (day : IsoDate) (W B : ℚ)
    (closeMaps : String → IsoDate → Option ℚ) (l : List NormalizedAllocation)
    (hW : 0 < W) (hB : 0 ≤ B) (hw : ∀ a ∈ l, 0 ≤ a.weight)
    (h : Holdings) (c : ℚ) (hh : ∀ t, 0 ≤ h t) :
    ∀ t, 0 ≤ (l.foldl (rebalanceStep day W B closeMaps) (h, c)).1 t := by
  have := foldl_preserve (fun s : Holdings × ℚ => ∀ t, 0 ≤ s.1 t)
    (rebalanceStep day W B closeMaps) l ?_ (h, c) hh
  · exact this
  · rintro ⟨h', c'⟩ a ha hs t
    cases hcm : closeMaps a.ticker day with
    | none =>
      have hstep : rebalanceStep day W B closeMaps (h', c') a = (h', c') := by
        unfold rebalanceStep
        rw [hcm]
      rw [hstep]
      exact hs t
    | some p =>
      by_cases hp : p ≤ 0
      · have hstep : rebalanceStep day W B closeMaps (h', c') a = (h', c') := by
          unfold rebalanceStep
          rw [hcm]
          exact if_pos hp
        rw [hstep]
        exact hs t
      · have hstep : rebalanceStep day W B closeMaps (h', c') a =
            (Function.update h' a.ticker (B * (a.weight / W) / p),
              c' + B * (a.weight / W)) := by
          unfold rebalanceStep
          rw [hcm]
          exact if_neg hp
        rw [hstep]
        show 0 ≤ Function.update h' a.ticker (B * (a.weight / W) / p) t
        rw [Function.update_apply]
        split
        · have hp' : 0 < p := lt_of_not_le hp
          have hwa := hw a ha
          positivity
        · exact hs t

theorem rebalancePortfolio_nonneg (day : IsoDate)
    (allocations : List NormalizedAllocation) (holdings : Holdings)
    (closeMaps : String → IsoDate → Option ℚ) (cashValue minimumCashReserve : ℚ)
    (hw : ∀ a ∈ allocations, 0 ≤ a.weight)
    (hh : ∀ t, 0 ≤ holdings t) (hc : 0 ≤ cashValue) :
    (∀ t, 0 ≤ (rebalancePortfolio day allocations holdings closeMaps cashValue
        minimumCashReserve).1 t) ∧
      0 ≤ (rebalancePortfolio day allocations holdings closeMaps cashValue
        minimumCashReserve).2 := by
  unfold rebalancePortfolio
  simp only [computePortfolioValue]
  by_cases hP : computeStockValue day allocations holdings closeMaps + cashValue ≤ 0
  · rw [if_pos hP]
    exact ⟨hh, hc⟩
  · rw [if_neg hP]
    by_cases h2 : computeDesiredStockBudget
        (computeStockValue day allocations holdings closeMaps + cashValue)
        (getTotalStockWeight allocations) minimumCashReserve ≤ 0 ∨
      getTotalStockWeight allocations ≤ 0
    · rw [if_pos h2]
      constructor
      · intro t
        show 0 ≤ List.foldl (fun w a => Function.update w a.ticker 0) holdings allocations t
        rw [foldl_update_apply (fun x : NormalizedAllocation => x.ticker)
          (fun _ => 0) allocations holdings t]
        split
        · exact le_refl 0
        · exact hh t
      · exact le_of_lt (lt_of_not_le hP)
    · rw [if_neg h2]
      push_neg at h2
      constructor
      · intro t
        exact rebalance_foldl_fst_nonneg day (getTotalStockWeight allocations) _
          closeMaps allocations h2.2 (computeDesiredStockBudget_nonneg _ _ _) hw
          holdings 0 hh t
      · exact le_max_left 0 _


theorem eventsPhase_nonneg (ctx : SimContext) (day : IsoDate) (acc : DayAcc)
    (hacc : AccNonneg acc) : AccNonneg (eventsPhase ctx day acc) := by
  obtain ⟨hh, hc⟩ := hacc
  have hsplit := applySplitEvents_nonneg day ctx.allocations acc.holdings ctx.splitMaps hh
  have hdvd := applyDividendEvents_nonneg day ctx.allocations
    (applySplitEvents day ctx.allocations acc.holdings ctx.splitMaps)
    ctx.closeMaps ctx.dividendMaps ctx.request.dividendPolicy acc.cashValue hsplit hc
  exact ⟨hdvd.1, hdvd.2⟩

theorem initialInvestPhase_nonneg (ctx : SimContext) (index : Nat) (day : IsoDate)
    (acc : DayAcc)
    (hI : 0 ≤ ctx.request.initialAmount) (hR : 0 ≤ ctx.request.minimumCashReserve)
    (hw : ∀ a ∈ ctx.allocations, 0 ≤ a.weight)
    (hacc : AccNonneg acc) : AccNonneg (initialInvestPhase ctx index day acc) := by
  obtain ⟨hh, hc⟩ := hacc
  unfold initialInvestPhase
  split
  · have hc3 : 0 ≤ acc.cashValue + ctx.request.initialAmount := by linarith
    have hBle := (computeDesiredStockBudget_spec (acc.cashValue + ctx.request.initialAmount)
      ctx.totalStockWeight ctx.request.minimumCashReserve hR).2.2
    have hBnn := computeDesiredStockBudget_nonneg
      (acc.cashValue + ctx.request.initialAmount) ctx.totalStockWeight
      ctx.request.minimumCashReserve
    have hminnn : 0 ≤ min ctx.request.minimumCashReserve
        (acc.cashValue + ctx.request.initialAmount) := le_min hR hc3
    obtain ⟨b1, b2, b3⟩ := investByRelativeStockWeights_bounds
      (computeDesiredStockBudget (acc.cashValue + ctx.request.initialAmount)
        ctx.totalStockWeight ctx.request.minimumCashReserve)
      day ctx.allocations acc.holdings ctx.closeMaps hBnn hw hh
    refine ⟨b1, ?_⟩
    simp only []
    linarith
  · exact ⟨hh, hc⟩

theorem salaryPhase_nonneg (ctx : SimContext) (day : IsoDate) (acc : DayAcc)
    (hacc : AccNonneg acc) : AccNonneg (salaryPhase ctx day acc) := by
  obtain ⟨hh, hc⟩ := hacc
  unfold salaryPhase
  dsimp only
  split
  case isTrue hpos =>
    refine ⟨hh, ?_⟩
    simp only []
    have : (0 : ℚ) ≤ max 0 (ctx.request.monthlySalary - 1000000) := le_max_left 0 _
    linarith
  case isFalse => exact ⟨hh, hc⟩

theorem contributionPhase_nonneg (ctx : SimContext) (day : IsoDate) (acc : DayAcc)
    (hR : 0 ≤ ctx.request.minimumCashReserve)
    (hw : ∀ a ∈ ctx.allocations, 0 ≤ a.weight)
    (hacc : AccNonneg acc) : AccNonneg (contributionPhase ctx day acc) := by
  have hAS := salaryPhase_nonneg ctx day acc hacc
  obtain ⟨hash, hasc⟩ := hAS
  unfold contributionPhase
  split
  case isTrue hday =>
    dsimp only
    split
    case isTrue hcond =>
      have hinv : 0 ≤ min ctx.request.monthlyContribution
          (max 0 ((salaryPhase ctx day acc).cashValue - ctx.request.minimumCashReserve)) :=
        le_min (le_of_lt hcond.1) (le_max_left 0 _)
      obtain ⟨b1, b2, b3⟩ := investByRelativeStockWeights_bounds
        (min ctx.request.monthlyContribution
          (max 0 ((salaryPhase ctx day acc).cashValue - ctx.request.minimumCashReserve)))
        day ctx.allocations (salaryPhase ctx day acc).holdings ctx.closeMaps hinv hw hash
      refine ⟨b1, ?_⟩
      simp only []
      have hinvle : max 0 ((salaryPhase ctx day acc).cashValue -
          ctx.request.minimumCashReserve) ≤ (salaryPhase ctx day acc).cashValue := by
        apply max_le hasc
        linarith
      have hminle : min ctx.request.monthlyContribution
          (max 0 ((salaryPhase ctx day acc).cashValue - ctx.request.minimumCashReserve)) ≤
          (salaryPhase ctx day acc).cashValue := le_trans (min_le_right _ _) hinvle
      linarith
    case isFalse => exact ⟨hash, hasc⟩
  case isFalse => exact hacc

theorem dragPhase_nonneg (ctx : SimContext) (acc : DayAcc)
    (hexp : ∀ a ∈ ctx.allocations, a.expenseRatio ≤ 252)
    (hacc : AccNonneg acc) : AccNonneg (dragPhase ctx acc) :=
  ⟨applyDailyExpenseDrag_nonneg ctx.allocations acc.holdings hexp hacc.1, hacc.2⟩

theorem rebalancePhase_nonneg (ctx : SimContext) (index : Nat) (day : IsoDate)
    (acc : DayAcc)
    (hw : ∀ a ∈ ctx.allocations, 0 ≤ a.weight)
    (hacc : AccNonneg acc) : AccNonneg (rebalancePhase ctx index day acc) := by
  obtain ⟨hh, hc⟩ := hacc
  unfold rebalancePhase
  split
  · obtain ⟨r1, r2⟩ := rebalancePortfolio_nonneg day ctx.allocations acc.holdings
      ctx.closeMaps acc.cashValue ctx.request.minimumCashReserve hw hh hc
    exact ⟨r1, r2⟩
  · exact ⟨hh, hc⟩

theorem processDay_nonneg (ctx : SimContext) (index : Nat) (day : IsoDate) (acc : DayAcc)
    (hI : 0 ≤ ctx.request.initialAmount) (hR : 0 ≤ ctx.request.minimumCashReserve)
    (hw : ∀ a ∈ ctx.allocations, 0 ≤ a.weight)
    (hexp : ∀ a ∈ ctx.allocations, a.expenseRatio ≤ 252)
    (hacc : AccNonneg acc) : AccNonneg (processDay ctx index day acc) :=
  rebalancePhase_nonneg ctx index day _ hw
    (dragPhase_nonneg ctx _ hexp
      (contributionPhase_nonneg ctx day _ hR hw
        (initialInvestPhase_nonneg ctx index day _ hI hR hw
          (eventsPhase_nonneg ctx day acc hacc))))


theorem simStep_inv (ctx : SimContext) (index : Nat) (day : IsoDate) (s : DayState)
    (hI : 0 ≤ ctx.request.initialAmount) (hR : 0 ≤ ctx.request.minimumCashReserve)
    (hw : ∀ a ∈ ctx.allocations, 0 ≤ a.weight)
    (hexp : ∀ a ∈ ctx.allocations, a.expenseRatio ≤ 252)
    (hpr : ∀ a ∈ ctx.allocations, ∀ d, 0 ≤ (ctx.closeMaps a.ticker d).getD 0)
    (hs : StateInv s) : StateInv (simStep ctx index day s) := by
  obtain ⟨hh, hc, htl⟩ := hs
  have hacc : AccNonneg (processDay ctx index day (dayAccOf s)) :=
    processDay_nonneg ctx index day (dayAccOf s) hI hR hw hexp ⟨hh, hc⟩
  obtain ⟨hah, hac⟩ := hacc
  have hsv : 0 ≤ computeStockValue day ctx.allocations
      (processDay ctx index day (dayAccOf s)).holdings ctx.closeMaps :=
    computeStockValue_nonneg day ctx.allocations _ ctx.closeMaps
      (fun a _ => hah a.ticker) (fun a ha => hpr a ha day)
  unfold simStep
  refine ⟨hah, hac, ?_⟩
  intro pt hpt
  rcases List.mem_append.mp hpt with hmem | hmem
  · exact htl pt hmem
  · rcases List.mem_singleton.mp hmem with rfl
    refine ⟨hac, ?_⟩
    show 0 ≤ computePortfolioValue _ _
    unfold computePortfolioValue
    exact add_nonneg hsv hac

theorem simStep_timeline_dates (ctx : SimContext) (index : Nat) (day : IsoDate)
    (s : DayState) :
    (simStep ctx index day s).timeline.map (fun pt => pt.date) =
      s.timeline.map (fun pt => pt.date) ++ [day] := by
  unfold simStep
  rw [List.map_append]
  rfl

theorem simLoop_inv (ctx : SimContext) (days : List IsoDate)
    (hI : 0 ≤ ctx.request.initialAmount) (hR : 0 ≤ ctx.request.minimumCashReserve)
    (hw : ∀ a ∈ ctx.allocations, 0 ≤ a.weight)
    (hexp : ∀ a ∈ ctx.allocations, a.expenseRatio ≤ 252)
    (hpr : ∀ a ∈ ctx.allocations, ∀ d, 0 ≤ (ctx.closeMaps a.ticker d).getD 0)
    (index : Nat) (s : DayState) (hs : StateInv s) :
    StateInv (simLoop ctx index days s) := by
  induction days generalizing index s with
  | nil => exact hs
  | cons day rest ih =>
    exact ih (index + 1) (simStep ctx index day s)
      (simStep_inv ctx index day s hI hR hw hexp hpr hs)

theorem simLoop_timeline_dates (ctx : SimContext) (days : List IsoDate)
    (index : Nat) (s : DayState) :
    (simLoop ctx index days s).timeline.map (fun pt => pt.date) =
      s.timeline.map (fun pt => pt.date) ++ days := by
  induction days generalizing index s with
  | nil => simp [simLoop]
  | cons day rest ih =>
    show (simLoop ctx (index + 1) rest (simStep ctx index day s)).timeline.map
        (fun pt => pt.date) = _
    rw [ih (index + 1) (simStep ctx index day s), simStep_timeline_dates]
    simp

/-! ## Helper lemmas: from request validity and fetched data to the loop
context -/

theorem getLast?_mem {α : Type} {l : List α} {x : α} (h : l.getLast? = some x) :
    x ∈ l := by
  rcases List.mem_getLast?_eq_getLast (show x ∈ l.getLast? from h) with ⟨hne, hEq⟩
  rw [hEq]
  exact List.getLast_mem hne

theorem mapGetLast_mem {entries : List (IsoDate × ℚ)} {d : IsoDate} {v : ℚ}
    (h : mapGetLast entries d = some v) : ∃ e ∈ entries, e.2 = v := by
  unfold mapGetLast at h
  rcases Option.map_eq_some'.mp h with ⟨e, he, hv⟩
  exact ⟨e, List.mem_of_mem_filter (getLast?_mem he), hv⟩

theorem toCloseMap_getD_nonneg (points : List PricePoint) (d : IsoDate)
    (h : ∀ p ∈ points, 0 ≤ p.close) : 0 ≤ (toCloseMap points d).getD 0 := by
  unfold toCloseMap
  cases hm : mapGetLast (points.map fun p => (p.date, p.close)) d with
  | none => simp
  | some v =>
    simp only [Option.getD_some]
    rcases mapGetLast_mem hm with ⟨e, he, hv⟩
    rcases List.mem_map.mp he with ⟨p, hp, rfl⟩
    exact hv ▸ h p hp

theorem eligible_weight_pos (request : SimulationRequestInput)
    (a : NormalizedAllocation) (ha : a ∈ eligibleAllocations request) : 0 < a.weight := by
  have ha2 : a ∈ (normalizeAllocations request.allocations).filter
      (fun allocation => decide (0 < allocation.weight)) := ha
  exact of_decide_eq_true (List.mem_filter.mp ha2).2

theorem eligible_expense (request : SimulationRequestInput)
    (a : NormalizedAllocation) (ha : a ∈ eligibleAllocations request) :
    ∃ raw ∈ request.allocations, a.expenseRatio = raw.expenseRatio := by
  have hmem : a ∈ normalizeAllocations request.allocations := List.mem_of_mem_filter ha
  rcases List.mem_map.mp hmem with ⟨raw, hraw, rfl⟩
  exact ⟨raw, hraw, rfl⟩

theorem simContext_hyps (request : SimulationRequestInput)
    (fetch : String → List PricePoint)
    (hexp : ∀ a ∈ request.allocations, a.expenseRatio ≤ 1/20)
    (hClose : ∀ t ∈ (eligibleAllocations request).map (fun a => a.ticker),
      ∀ p ∈ fetch t, 0 ≤ p.close) :
    (∀ a ∈ (simContext request fetch).allocations, 0 ≤ a.weight) ∧
    (∀ a ∈ (simContext request fetch).allocations, a.expenseRatio ≤ 252) ∧
    (∀ a ∈ (simContext request fetch).allocations, ∀ d,
      0 ≤ ((simContext request fetch).closeMaps a.ticker d).getD 0) := by
  refine ⟨?_, ?_, ?_⟩
  · intro a ha
    exact le_of_lt (eligible_weight_pos request a ha)
  · intro a ha
    rcases eligible_expense request a ha with ⟨raw, hraw, hEq⟩
    have := hexp raw hraw
    rw [hEq]
    linarith
  · intro a ha d
    exact toCloseMap_getD_nonneg (fetch a.ticker) d
      (hClose a.ticker (List.mem_map.mpr ⟨a, ha, rfl⟩))

theorem pairwise_and {α : Type} {R S : α → α → Prop} {l : List α}
    (hR : List.Pairwise R l) (hS : List.Pairwise S l) :
    List.Pairwise (fun a b => R a b ∧ S a b) l := by
  induction l with
  | nil => exact List.Pairwise.nil
  | cons a l ih =>
    rcases List.pairwise_cons.mp hR with ⟨hRa, hRl⟩
    rcases List.pairwise_cons.mp hS with ⟨hSa, hSl⟩
    exact List.pairwise_cons.mpr ⟨fun b hb => ⟨hRa b hb, hSa b hb⟩, ih hRl hSl⟩

theorem sortIsoDates_pairwise_lt (first : List IsoDate)
    (h : List.Pairwise IsoDate.lt first) :
    List.Pairwise IsoDate.lt (sortIsoDates first) := by
  have hsorted : List.Pairwise IsoDate.le (sortIsoDates first) :=
    List.sorted_insertionSort IsoDate.le first
  have hperm : List.Perm (sortIsoDates first) first :=
    List.perm_insertionSort IsoDate.le first
  have hne : List.Pairwise (fun a b : IsoDate => a ≠ b) first :=
    h.imp (fun hab => IsoDate.ne_of_lt hab)
  have hnd : List.Pairwise (fun a b : IsoDate => a ≠ b) (sortIsoDates first) :=
    (List.Perm.nodup_iff hperm).mpr hne
  exact (pairwise_and hsorted hnd).imp
    (fun hab => IsoDate.lt_iff_le_and_ne.mpr hab)

theorem intersectDates_pairwise_lt (first : List IsoDate) (rest : List (List IsoDate))
    (h : List.Pairwise IsoDate.lt first) :
    List.Pairwise IsoDate.lt (intersectDates (first :: rest)) := by
  unfold intersectDates
  exact (sortIsoDates_pairwise_lt first h).sublist (List.filter_sublist _)

theorem eligibleAllocations_ne_nil (request : SimulationRequestInput)
    (hPos : ∃ a ∈ request.allocations, 0 < a.targetWeight) :
    (eligibleAllocations request).length ≠ 0 := by
  rcases hPos with ⟨raw, hraw, hwpos⟩
  have hmem : ({ ticker := jsToUpper raw.ticker
                 weight := raw.targetWeight / 100
                 expenseRatio := raw.expenseRatio } : NormalizedAllocation) ∈
      normalizeAllocations request.allocations :=
    List.mem_map.mpr ⟨raw, hraw, rfl⟩
  have hwq : (0 : ℚ) < raw.targetWeight / 100 := by positivity
  have hin : ({ ticker := jsToUpper raw.ticker
                weight := raw.targetWeight / 100
                expenseRatio := raw.expenseRatio } : NormalizedAllocation) ∈
      eligibleAllocations request := by
    show _ ∈ (normalizeAllocations request.allocations).filter
      (fun allocation => decide (0 < allocation.weight))
    exact List.mem_filter.mpr ⟨hmem, decide_eq_true hwq⟩
  intro hlen
  rw [List.length_eq_zero] at hlen
  rw [hlen] at hin
  exact List.not_mem_nil _ hin

theorem initialDayState_inv : StateInv initialDayState :=
  ⟨fun _ => le_refl 0, le_refl 0, fun pt hpt => absurd hpt (List.not_mem_nil pt)⟩

/-! ## Claim C9: cash is never negative -/

/-- C9: for a valid request (all cash-flow inputs ≥ 0 and expense ratios
within [0, 0.05]) and price data with nonnegative closes, nonnegative
dividends and positive split ratios, every timeline point recorded by a
successful `runSimulation` has `cashValue ≥ 0`: purchases spend at most
the budgeted cash, and rebalancing clamps residual cash at 0. -/
theorem runSimulation_cash_nonneg (request : SimulationRequestInput)
    (fetch : String → List PricePoint)
    (hI : 0 ≤ request.initialAmount)
    (hSal : 0 ≤ request.monthlySalary)
    (hCon : 0 ≤ request.monthlyContribution)
    (hR : 0 ≤ request.minimumCashReserve)
    (hexp : ∀ a ∈ request.allocations, 0 ≤ a.expenseRatio ∧ a.expenseRatio ≤ 1/20)
    (hClose : ∀ t ∈ (eligibleAllocations request).map (fun a => a.ticker),
      ∀ p ∈ fetch t, 0 ≤ p.close)
    (hDvd : ∀ t ∈ (eligibleAllocations request).map (fun a => a.ticker),
      ∀ p ∈ fetch t, 0 ≤ p.dividendPerShare)
    (hSplit : ∀ t ∈ (eligibleAllocations request).map (fun a => a.ticker),
      ∀ p ∈ fetch t, 0 < p.splitRatio)
    (res : SimulationResult) (hok : runSimulation request fetch = Except.ok res) :
    ∀ pt ∈ res.timeline, 0 ≤ pt.cashValue := by
  unfold runSimulation at hok
  by_cases h0 : (eligibleAllocations request).length = 0
  · rw [if_pos h0] at hok
    exact absurd hok (by simp)
  · rw [if_neg h0] at hok
    by_cases h1 : (simTradingDays request fetch).length < 2
    · rw [if_pos h1] at hok
      exact absurd hok (by simp)
    · rw [if_neg h1] at hok
      have hres : res.timeline = (simLoop (simContext request fetch) 0
          (simTradingDays request fetch) initialDayState).timeline := by
        injection hok with h
        rw [← h]
      obtain ⟨hw, hexp2, hpr⟩ := simContext_hyps request fetch
        (fun a ha => (hexp a ha).2) hClose
      have hinv := simLoop_inv (simContext request fetch) (simTradingDays request fetch)
        hI hR hw hexp2 hpr 0 initialDayState initialDayState_inv
      rw [hres]
      intro pt hpt
      exact (hinv.2.2 pt hpt).1

/-! ## Claim C1: one timeline point per overlapping trading day -/

/-- C1: for a valid request (at least one positive-weight allocation,
nonnegative cash-flow inputs, expense ratios in [0, 0.05], nonnegative
closes), per-ticker price series strictly ascending by date, and at
least 2 overlapping trading days, `runSimulation` succeeds and its
timeline has exactly one point per overlapping trading day (the sorted
date-intersection of the allocation tickers' series and the
benchmark's), with strictly increasing dates and a nonnegative portfolio
value at every point. -/
theorem runSimulation_timeline_spec (request : SimulationRequestInput)
    (fetch : String → List PricePoint)
    (hI : 0 ≤ request.initialAmount)
    (hR : 0 ≤ request.minimumCashReserve)
    (hexp : ∀ a ∈ request.allocations, 0 ≤ a.expenseRatio ∧ a.expenseRatio ≤ 1/20)
    (hPos : ∃ a ∈ request.allocations, 0 < a.targetWeight)
    (hClose : ∀ t ∈ (eligibleAllocations request).map (fun a => a.ticker),
      ∀ p ∈ fetch t, 0 ≤ p.close)
    (hAsc : ∀ t ∈ (eligibleAllocations request).map (fun a => a.ticker) ++
        [jsToUpper request.benchmarkTicker],
      List.Pairwise IsoDate.lt ((fetch t).map (fun p => p.date)))
    (hDays : 2 ≤ (simTradingDays request fetch).length) :
    ∃ res, runSimulation request fetch = Except.ok res ∧
      res.timeline.map (fun pt => pt.date) = simTradingDays request fetch ∧
      res.timeline.length = (simTradingDays request fetch).length ∧
      List.Pairwise IsoDate.lt (res.timeline.map (fun pt => pt.date)) ∧
      ∀ pt ∈ res.timeline, 0 ≤ pt.portfolioValue := by
  have h0 := eligibleAllocations_ne_nil request hPos
  have hdates : (simLoop (simContext request fetch) 0 (simTradingDays request fetch)
      initialDayState).timeline.map (fun pt => pt.date) =
      simTradingDays request fetch := by
    rw [simLoop_timeline_dates]
    simp [initialDayState]
  have hsorted : List.Pairwise IsoDate.lt (simTradingDays request fetch) := by
    obtain ⟨a0, tl, hE⟩ : ∃ a0 tl, eligibleAllocations request = a0 :: tl := by
      cases hE : eligibleAllocations request with
      | nil => exact absurd (by rw [hE]; rfl) h0
      | cons a0 tl => exact ⟨a0, tl, rfl⟩
    have hstep : simTradingDays request fetch =
        intersectDates (((fetch a0.ticker).map fun p => p.date) ::
          ((tl.map fun allocation => (fetch allocation.ticker).map fun p => p.date) ++
            [(fetch (jsToUpper request.benchmarkTicker)).map fun p => p.date])) := by
      unfold simTradingDays
      rw [hE]
      rfl
    rw [hstep]
    apply intersectDates_pairwise_lt
    apply hAsc
    apply List.mem_append_left
    rw [hE]
    exact List.mem_map.mpr ⟨a0, List.mem_cons_self a0 tl, rfl⟩
  obtain ⟨hw, hexp2, hpr⟩ := simContext_hyps request fetch
    (fun a ha => (hexp a ha).2) hClose
  have hinv := simLoop_inv (simContext request fetch) (simTradingDays request fetch)
    hI hR hw hexp2 hpr 0 initialDayState initialDayState_inv
  refine ⟨{ timeline := (simLoop (simContext request fetch) 0
      (simTradingDays request fetch) initialDayState).timeline }, ?_, hdates, ?_, ?_, ?_⟩
  · unfold runSimulation
    rw [if_neg h0, if_neg (not_lt.mpr hDays)]
  · show (simLoop (simContext request fetch) 0 (simTradingDays request fetch)
        initialDayState).timeline.length = (simTradingDays request fetch).length
    rw [← List.length_map (simLoop (simContext request fetch) 0
        (simTradingDays request fetch) initialDayState).timeline (fun pt => pt.date),
      hdates]
  · show List.Pairwise IsoDate.lt ((simLoop (simContext request fetch) 0
        (simTradingDays request fetch) initialDayState).timeline.map (fun pt => pt.date))
    rw [hdates]
    exact hsorted
  · intro pt hpt
    exact (hinv.2.2 pt hpt).2



theorem runSimulation_ok (request : SimulationRequestInput)
    (fetch : String → List PricePoint)
    (h0 : (eligibleAllocations request).length ≠ 0)
    (hDays : 2 ≤ (simTradingDays request fetch).length) :
    runSimulation request fetch = Except.ok
      { timeline := (simLoop (simContext request fetch) 0 (simTradingDays request fetch)
          initialDayState).timeline } := by
  unfold runSimulation
  rw [if_neg h0, if_neg (not_lt.mpr hDays)]

theorem example_simTradingDays :
    simTradingDays requestWeightSum100 fetchTwoDays =
      [⟨2024, 1, 2⟩, ⟨2024, 1, 3⟩] := by
  norm_num [simTradingDays, intersectDates, sortIsoDates, eligibleAllocations,
    normalizeAllocations, requestWeightSum100, requestWithAllocations, fetchTwoDays,
    List.insertionSort, List.orderedInsert]
  rw [if_pos (show IsoDate.le ⟨2024, 1, 2⟩ ⟨2024, 1, 3⟩ by decide)]
  decide

theorem example_eligible_ne_nil :
    (eligibleAllocations requestWeightSum100).length ≠ 0 := by
  norm_num [eligibleAllocations, normalizeAllocations, requestWeightSum100,
    requestWithAllocations]

/-- Witness for C9: the example run succeeds and the theorem applies to
its result. -/
theorem runSimulation_cash_nonneg_witness :
    (0 ≤ requestWeightSum100.initialAmount) ∧
    (0 ≤ requestWeightSum100.monthlySalary) ∧
    (0 ≤ requestWeightSum100.monthlyContribution) ∧
    (0 ≤ requestWeightSum100.minimumCashReserve) ∧
    (∀ a ∈ requestWeightSum100.allocations,
      0 ≤ a.expenseRatio ∧ a.expenseRatio ≤ 1/20) ∧
    (∀ t ∈ (eligibleAllocations requestWeightSum100).map (fun a => a.ticker),
      ∀ p ∈ fetchTwoDays t, 0 ≤ p.close) ∧
    (∀ t ∈ (eligibleAllocations requestWeightSum100).map (fun a => a.ticker),
      ∀ p ∈ fetchTwoDays t, 0 ≤ p.dividendPerShare) ∧
    (∀ t ∈ (eligibleAllocations requestWeightSum100).map (fun a => a.ticker),
      ∀ p ∈ fetchTwoDays t, 0 < p.splitRatio) ∧
    runSimulation requestWeightSum100 fetchTwoDays = Except.ok witnessRunResult ∧
    (∀ pt ∈ witnessRunResult.timeline, 0 ≤ pt.cashValue) := by
  have hexp : ∀ a ∈ requestWeightSum100.allocations,
      0 ≤ a.expenseRatio ∧ a.expenseRatio ≤ 1/20 := by
    intro a ha
    simp only [requestWeightSum100, requestWithAllocations] at ha
    fin_cases ha <;> norm_num
  have hClose : ∀ t ∈ (eligibleAllocations requestWeightSum100).map (fun a => a.ticker),
      ∀ p ∈ fetchTwoDays t, 0 ≤ p.close := by
    intro t _ p hp
    simp only [fetchTwoDays] at hp
    fin_cases hp <;> norm_num
  have hDvd : ∀ t ∈ (eligibleAllocations requestWeightSum100).map (fun a => a.ticker),
      ∀ p ∈ fetchTwoDays t, 0 ≤ p.dividendPerShare := by
    intro t _ p hp
    simp only [fetchTwoDays] at hp
    fin_cases hp <;> norm_num
  have hSplit : ∀ t ∈ (eligibleAllocations requestWeightSum100).map (fun a => a.ticker),
      ∀ p ∈ fetchTwoDays t, 0 < p.splitRatio := by
    intro t _ p hp
    simp only [fetchTwoDays] at hp
    fin_cases hp <;> norm_num
  have hDays : 2 ≤ (simTradingDays requestWeightSum100 fetchTwoDays).length := by
    rw [example_simTradingDays]
    norm_num
  have hok : runSimulation requestWeightSum100 fetchTwoDays =
      Except.ok witnessRunResult :=
    runSimulation_ok requestWeightSum100 fetchTwoDays example_eligible_ne_nil hDays
  refine ⟨by norm_num [requestWeightSum100, requestWithAllocations],
    by norm_num [requestWeightSum100, requestWithAllocations],
    by norm_num [requestWeightSum100, requestWithAllocations],
    by norm_num [requestWeightSum100, requestWithAllocations],
    hexp, hClose, hDvd, hSplit, hok, ?_⟩
  exact runSimulation_cash_nonneg requestWeightSum100 fetchTwoDays
    (by norm_num [requestWeightSum100, requestWithAllocations])
    (by norm_num [requestWeightSum100, requestWithAllocations])
    (by norm_num [requestWeightSum100, requestWithAllocations])
    (by norm_num [requestWeightSum100, requestWithAllocations])
    hexp hClose hDvd hSplit witnessRunResult hok

/-- Witness for C1 at the example request and two-day data. -/
theorem runSimulation_timeline_spec_witness :
    (0 ≤ requestWeightSum100.initialAmount) ∧
    (0 ≤ requestWeightSum100.minimumCashReserve) ∧
    (∀ a ∈ requestWeightSum100.allocations,
      0 ≤ a.expenseRatio ∧ a.expenseRatio ≤ 1/20) ∧
    (∃ a ∈ requestWeightSum100.allocations, 0 < a.targetWeight) ∧
    (∀ t ∈ (eligibleAllocations requestWeightSum100).map (fun a => a.ticker),
      ∀ p ∈ fetchTwoDays t, 0 ≤ p.close) ∧
    (∀ t ∈ (eligibleAllocations requestWeightSum100).map (fun a => a.ticker) ++
        [jsToUpper requestWeightSum100.benchmarkTicker],
      List.Pairwise IsoDate.lt ((fetchTwoDays t).map (fun p => p.date))) ∧
    (2 ≤ (simTradingDays requestWeightSum100 fetchTwoDays).length) ∧
    (∃ res, runSimulation requestWeightSum100 fetchTwoDays = Except.ok res ∧
      res.timeline.map (fun pt => pt.date) =
        simTradingDays requestWeightSum100 fetchTwoDays ∧
      res.timeline.length = (simTradingDays requestWeightSum100 fetchTwoDays).length ∧
      List.Pairwise IsoDate.lt (res.timeline.map (fun pt => pt.date)) ∧
      ∀ pt ∈ res.timeline, 0 ≤ pt.portfolioValue) := by
  have hexp : ∀ a ∈ requestWeightSum100.allocations,
      0 ≤ a.expenseRatio ∧ a.expenseRatio ≤ 1/20 := by
    intro a ha
    simp only [requestWeightSum100, requestWithAllocations] at ha
    fin_cases ha <;> norm_num
  have hPos : ∃ a ∈ requestWeightSum100.allocations, 0 < a.targetWeight := by
    refine ⟨⟨"AAA", 60, 0⟩, ?_, by norm_num⟩
    simp [requestWeightSum100, requestWithAllocations]
  have hClose : ∀ t ∈ (eligibleAllocations requestWeightSum100).map (fun a => a.ticker),
      ∀ p ∈ fetchTwoDays t, 0 ≤ p.close := by
    intro t _ p hp
    simp only [fetchTwoDays] at hp
    fin_cases hp <;> norm_num
  have hAsc : ∀ t ∈ (eligibleAllocations requestWeightSum100).map (fun a => a.ticker) ++
      [jsToUpper requestWeightSum100.benchmarkTicker],
      List.Pairwise IsoDate.lt ((fetchTwoDays t).map (fun p => p.date)) := by
    intro t _
    show List.Pairwise IsoDate.lt
      (([⟨⟨2024, 1, 2⟩, 10, 10, 0, 1⟩, ⟨⟨2024, 1, 3⟩, 11, 11, 0, 1⟩] : List PricePoint).map
        (fun p => p.date))
    decide
  have hDays : 2 ≤ (simTradingDays requestWeightSum100 fetchTwoDays).length := by
    rw [example_simTradingDays]
    norm_num
  refine ⟨by norm_num [requestWeightSum100, requestWithAllocations],
    by norm_num [requestWeightSum100, requestWithAllocations],
    hexp, hPos, hClose, hAsc, hDays, ?_⟩
  exact runSimulation_timeline_spec requestWeightSum100 fetchTwoDays
    (by norm_num [requestWeightSum100, requestWithAllocations])
    (by norm_num [requestWeightSum100, requestWithAllocations])
    hexp hPos hClose hAsc hDays
